import Mathlib

/-!
Verification development for the ssosync reconciliation engine
(`internal/sync.go`).

The Go source is shallowly embedded: the pure diff engine
(`getUserOperations`, `getGroupOperations`, `getGroupUsersOperations`),
the snapshot collector (`getGoogleGroupsAndUsers`), the filter policy
(`ignoreUser`, `ignoreGroup`, `includeGroup`), and the apply pipeline of
`SyncGroupsUsers` and the main loop of `SyncUsers`.

Stateful interaction with the two external collaborators (the Google
directory and the AWS SCIM store) is embedded by passing explicit
oracle records whose methods return `Except`-valued results, as the
spec's section 6 describes the collaborator contracts.  Each collaborator
call made by the pipeline is recorded in a trace, so temporal claims
(phase ordering, abort-on-error) become statements about the trace.

Go maps are embedded as association lists: insertion conses the new
binding in front, so lookup (which scans from the front) sees the most
recent binding for a key, matching Go's overwrite-on-insert semantics.
Go's map iteration order is unspecified; where the source iterates a
map we fix the association-list order, which refines the source
nondeterminism (all claims below are order-insensitive).
-/

/-- Name fields shared by Google's `admin.User.Name` and `aws.User.Name`. -/
structure UserName where
  givenName : String
  familyName : String
deriving DecidableEq

/-- Embedding of `admin.User` (the fields `sync.go` reads). -/
structure GoogleUser where
  primaryEmail : String
  name : UserName
  suspended : Bool
deriving DecidableEq

/-- Embedding of `admin.Member` (the fields `sync.go` reads). -/
structure GoogleMember where
  email : String
  type : String
deriving DecidableEq

/-- Embedding of `admin.Group` (the fields `sync.go` reads). -/
structure GoogleGroup where
  name : String
  email : String
deriving DecidableEq

/-- Embedding of `aws.User` (the fields `sync.go` reads): the username is
the primary email and is the key; `active` is the inverse of suspended. -/
structure AwsUser where
  id : String
  username : String
  name : UserName
  active : Bool
deriving DecidableEq

/-- Embedding of `aws.Group` (the fields `sync.go` reads). -/
structure AwsGroup where
  id : String
  displayName : String
deriving DecidableEq

/-- Modelled from the spec: the collaborator constructor `aws.NewUser`
(the `aws` package is outside `src/`) builds a user record from given
name, family name, email and active flag; the email is the username/key
and the target-assigned id is empty until the store fills it. -/
def NewUser (givenName familyName email : String) (active : Bool) : AwsUser :=
  { id := "", username := email, name := { givenName := givenName, familyName := familyName },
    active := active }

/-- Modelled from the spec: the collaborator constructor `aws.UpdateUser`
(the `aws` package is outside `src/`) builds a full user record carrying
an existing target-assigned id together with fresh attributes. -/
def UpdateUser (id givenName familyName email : String) (active : Bool) : AwsUser :=
  { id := id, username := email, name := { givenName := givenName, familyName := familyName },
    active := active }

/-- Modelled from the spec: the collaborator constructor `aws.NewGroup`
(the `aws` package is outside `src/`) builds a group record from a
display name, with an empty target-assigned id. -/
def NewGroup (displayName : String) : AwsGroup :=
  { id := "", displayName := displayName }

/-- Go map lookup over an association list: the first binding (most
recently inserted, since insertion conses) wins. -/
def mapLookup {α : Type} (m : List (String × α)) (k : String) : Option α :=
  match m with
  | [] => none
  | (k', v) :: t => if k' = k then some v else mapLookup t k

/-! ## Filter policy (`ignoreUser`, `ignoreGroup`, `includeGroup`,
and the skip condition of `SyncGroups`, sync.go lines 215 and 875-903) -/

/-- `syncGSuite.ignoreUser`: exact-match scan of the ignore-user list. -/
def ignoreUser (ignoreUsers : List String) (name : String) : Bool :=
  ignoreUsers.any (fun u => u == name)

/-- `syncGSuite.ignoreGroup`: exact-match scan of the ignore-group list. -/
def ignoreGroup (ignoreGroups : List String) (name : String) : Bool :=
  ignoreGroups.any (fun g => g == name)

/-- `syncGSuite.includeGroup`: exact-match scan of the include-group
list; note it returns `false` when the list is empty. -/
def includeGroup (includeGroups : List String) (name : String) : Bool :=
  includeGroups.any (fun g => g == name)

/-- The group-exclusion condition of `SyncGroups` (sync.go line 215):
`s.ignoreGroup(g.Email) || !s.includeGroup(g.Email)`. -/
def groupExcluded (ignoreGroups includeGroups : List String) (email : String) : Bool :=
  ignoreGroup ignoreGroups email || !includeGroup includeGroups email

/-- The spec's exclusion rule, written from the spec's words for
comparison with `groupExcluded`: excluded iff the email matches an
ignore-list entry, or the include-list is configured non-empty and the
email matches no include-list entry. -/
def specGroupExcluded (ignoreGroups includeGroups : List String) (email : String) : Bool :=
  ignoreGroups.contains email || (!includeGroups.isEmpty && !includeGroups.contains email)

/-! ## Diff engine (`getUserOperations`, `getGroupOperations`,
`getGroupUsersOperations`, sync.go lines 666-807) -/

/-- The attribute-mismatch condition of `getUserOperations`
(sync.go lines 722-724): the active flag equals the suspended flag
(i.e. active differs from the negated suspended flag), or the given
name differs, or the family name differs. -/
def userMismatch (awsUser : AwsUser) (gUser : GoogleUser) : Bool :=
  awsUser.active == gUser.suspended
    || awsUser.name.givenName != gUser.name.givenName
    || awsUser.name.familyName != gUser.name.familyName

/-- A Go map from keys to records, built by inserting every record of a
list keyed by `key` (insertion conses, so lookup sees the most recent
binding first, as in Go's overwrite-on-insert). -/
def buildMap {α : Type} (key : α → String) (l : List α) : List (String × α) :=
  l.foldl (fun m x => (key x, x) :: m) []

/-- The `awsMap` of `getUserOperations` (sync.go lines 712-714): a Go
map from username to user, built by inserting every AWS user. -/
def buildUserMap (awsUsers : List AwsUser) : List (String × AwsUser) :=
  buildMap (fun u => u.username) awsUsers

/-- `getUserOperations` (sync.go lines 705-765): classifies users into
`(add, delete, update, equals)`.  The single Go loop appends each
Google user to exactly one of `add`/`update`/`equals` according to the
lookup and mismatch tests, and a second loop appends each AWS user
absent from Google to `delete`; the same lists are produced here with
one `filterMap` per output list. -/
def getUserOperations (awsUsers : List AwsUser) (googleUsers : List GoogleUser) :
    List AwsUser × List AwsUser × List AwsUser × List AwsUser :=
  let awsMap := buildUserMap awsUsers
  let googleEmails := googleUsers.map (fun g => g.primaryEmail)
  let add := googleUsers.filterMap fun gUser =>
    if (mapLookup awsMap gUser.primaryEmail).isSome then none
    else some (NewUser gUser.name.givenName gUser.name.familyName gUser.primaryEmail
      (!gUser.suspended))
  let update := googleUsers.filterMap fun gUser =>
    match mapLookup awsMap gUser.primaryEmail with
    | some awsUser =>
      if userMismatch awsUser gUser then
        some (NewUser gUser.name.givenName gUser.name.familyName gUser.primaryEmail
          (!gUser.suspended))
      else none
    | none => none
  let equals := googleUsers.filterMap fun gUser =>
    match mapLookup awsMap gUser.primaryEmail with
    | some awsUser => if userMismatch awsUser gUser then none else some awsUser
    | none => none
  let dels := awsUsers.filterMap fun awsUser =>
    if googleEmails.contains awsUser.username then none
    else some (NewUser awsUser.name.givenName awsUser.name.familyName awsUser.username
      awsUser.active)
  (add, dels, update, equals)

/-- The add list of `getUserOperations`. -/
def userAdds (awsUsers : List AwsUser) (googleUsers : List GoogleUser) : List AwsUser :=
  (getUserOperations awsUsers googleUsers).1

/-- The delete list of `getUserOperations`. -/
def userDeletes (awsUsers : List AwsUser) (googleUsers : List GoogleUser) : List AwsUser :=
  (getUserOperations awsUsers googleUsers).2.1

/-- The update list of `getUserOperations`. -/
def userUpdates (awsUsers : List AwsUser) (googleUsers : List GoogleUser) : List AwsUser :=
  (getUserOperations awsUsers googleUsers).2.2.1

/-- The equals list of `getUserOperations`. -/
def userEquals (awsUsers : List AwsUser) (googleUsers : List GoogleUser) : List AwsUser :=
  (getUserOperations awsUsers googleUsers).2.2.2

/-- The `awsMap` of `getGroupOperations` (sync.go lines 671-675). -/
def buildGroupMap (awsGroups : List AwsGroup) : List (String × AwsGroup) :=
  buildMap (fun g => g.displayName) awsGroups

/-- `getGroupOperations` (sync.go lines 666-702): classifies groups into
`(add, delete, equals)` keyed by AWS display name against Google group
name. -/
def getGroupOperations (awsGroups : List AwsGroup) (googleGroups : List GoogleGroup) :
    List AwsGroup × List AwsGroup × List AwsGroup :=
  let awsMap := buildGroupMap awsGroups
  let googleNames := googleGroups.map (fun g => g.name)
  let add := googleGroups.filterMap fun gGroup =>
    if (mapLookup awsMap gGroup.name).isSome then none else some (NewGroup gGroup.name)
  let equals := googleGroups.filterMap fun gGroup => mapLookup awsMap gGroup.name
  let dels := awsGroups.filterMap fun awsGroup =>
    if googleNames.contains awsGroup.displayName then none
    else some (NewGroup awsGroup.displayName)
  (add, dels, equals)

/-- The add list of `getGroupOperations`. -/
def groupAdds (awsGroups : List AwsGroup) (googleGroups : List GoogleGroup) : List AwsGroup :=
  (getGroupOperations awsGroups googleGroups).1

/-- The delete list of `getGroupOperations`. -/
def groupDeletes (awsGroups : List AwsGroup) (googleGroups : List GoogleGroup) : List AwsGroup :=
  (getGroupOperations awsGroups googleGroups).2.1

/-- The equals list of `getGroupOperations`. -/
def groupEquals (awsGroups : List AwsGroup) (googleGroups : List GoogleGroup) : List AwsGroup :=
  (getGroupOperations awsGroups googleGroups).2.2

/-- The per-group member-email set `mbG` of `getGroupUsersOperations`
(sync.go lines 773-781): for each Google group name, the list of its
members' primary emails. -/
def googleMemberEmails (gGroupsUsers : List (String × List GoogleUser)) :
    List (String × List String) :=
  gGroupsUsers.map (fun p => (p.1, p.2.map (fun u => u.primaryEmail)))

/-- `getGroupUsersOperations` (sync.go lines 768-807): for each AWS
group, splits its member list into `(delete, equals)`: members whose
username is absent from the Google group's member-email set are to be
removed, members present in both are equal.  The Go code iterates the
`awsGroupsUsers` map in unspecified order and omits keys whose lists
would be empty; here every group keeps its (possibly empty) entry, in
association-list order. -/
def getGroupUsersOperations (gGroupsUsers : List (String × List GoogleUser))
    (awsGroupsUsers : List (String × List AwsUser)) :
    List (String × List AwsUser) × List (String × List AwsUser) :=
  let mbG := googleMemberEmails gGroupsUsers
  let classified := awsGroupsUsers.map fun p =>
    (p.1, p.2.partition (fun awsUser =>
      !((mapLookup mbG p.1).getD []).contains awsUser.username))
  (classified.map (fun q => (q.1, q.2.1)), classified.map (fun q => (q.1, q.2.2)))

/-! ## Association-list lemmas -/

theorem mapLookup_eq_some_mem {α : Type} {m : List (String × α)} {k : String} {v : α}
    (h : mapLookup m k = some v) : (k, v) ∈ m := by
  induction m with
  | nil => simp [mapLookup] at h
  | cons p t ih =>
    obtain ⟨k', v'⟩ := p
    by_cases hk : k' = k
    · subst hk
      simp [mapLookup] at h
      simp [h]
    · simp [mapLookup, hk] at h
      exact List.mem_cons_of_mem _ (ih h)

theorem mapLookup_isSome_of_mem {α : Type} {m : List (String × α)} {k : String} {v : α}
    (h : (k, v) ∈ m) : (mapLookup m k).isSome := by
  induction m with
  | nil => simp at h
  | cons p t ih =>
    obtain ⟨k', v'⟩ := p
    by_cases hk : k' = k
    · simp [mapLookup, hk]
    · rcases List.mem_cons.1 h with h' | h'
      · cases h'
        simp at hk
      · simpa [mapLookup, hk] using ih h'

theorem buildMap_eq {α : Type} (key : α → String) (l : List α) :
    buildMap key l = (l.map (fun x => (key x, x))).reverse := by
  suffices h : ∀ (m : List (String × α)),
      l.foldl (fun m x => (key x, x) :: m) m = (l.map (fun x => (key x, x))).reverse ++ m by
    simpa using h []
  induction l with
  | nil => intro m; simp
  | cons x t ih => intro m; simp [ih ((key x, x) :: m)]

theorem mem_buildMap {α : Type} {key : α → String} {l : List α} {k : String} {v : α} :
    (k, v) ∈ buildMap key l ↔ v ∈ l ∧ key v = k := by
  rw [buildMap_eq]
  simp only [List.mem_reverse, List.mem_map, Prod.mk.injEq]
  constructor
  · rintro ⟨x, hx, hk, hv⟩
    subst hv; exact ⟨hx, hk⟩
  · rintro ⟨hv, hk⟩
    exact ⟨v, hv, hk, rfl⟩

theorem mapLookup_buildMap_some {α : Type} {key : α → String} {l : List α} {k : String}
    {a : α} (h : mapLookup (buildMap key l) k = some a) : a ∈ l ∧ key a = k :=
  mem_buildMap.1 (mapLookup_eq_some_mem h)

theorem mapLookup_buildMap_isSome {α : Type} {key : α → String} {l : List α} {k : String} :
    (mapLookup (buildMap key l) k).isSome ↔ ∃ a ∈ l, key a = k := by
  constructor
  · intro h
    obtain ⟨a, ha⟩ := Option.isSome_iff_exists.1 h
    obtain ⟨h1, h2⟩ := mapLookup_buildMap_some ha
    exact ⟨a, h1, h2⟩
  · rintro ⟨a, hal, hak⟩
    exact mapLookup_isSome_of_mem (mem_buildMap.2 ⟨hal, hak⟩)

theorem mapLookup_buildMap_none {α : Type} {key : α → String} {l : List α} {k : String} :
    mapLookup (buildMap key l) k = none ↔ ∀ a ∈ l, key a ≠ k := by
  rw [← Option.not_isSome_iff_eq_none, mapLookup_buildMap_isSome]
  push_neg
  rfl

theorem mapLookup_buildMap_nodup {α : Type} {key : α → String} {l : List α}
    (hn : (l.map key).Nodup) {a : α} (ha : a ∈ l) :
    mapLookup (buildMap key l) (key a) = some a := by
  have hs : (mapLookup (buildMap key l) (key a)).isSome :=
    mapLookup_buildMap_isSome.2 ⟨a, ha, rfl⟩
  obtain ⟨a', ha'⟩ := Option.isSome_iff_exists.1 hs
  obtain ⟨h1, h2⟩ := mapLookup_buildMap_some ha'
  have he : a' = a := List.inj_on_of_nodup_map hn h1 ha h2
  rw [ha', he]

theorem mapLookup_buildUserMap_some {l : List AwsUser} {k : String} {a : AwsUser}
    (h : mapLookup (buildUserMap l) k = some a) : a ∈ l ∧ a.username = k :=
  mapLookup_buildMap_some h

theorem mapLookup_buildUserMap_none {l : List AwsUser} {k : String} :
    mapLookup (buildUserMap l) k = none ↔ ∀ a ∈ l, a.username ≠ k :=
  mapLookup_buildMap_none

theorem mapLookup_buildUserMap_nodup {l : List AwsUser}
    (hn : (l.map (fun u => u.username)).Nodup) {a : AwsUser} (ha : a ∈ l) :
    mapLookup (buildUserMap l) a.username = some a :=
  mapLookup_buildMap_nodup hn ha

theorem mapLookup_buildGroupMap_some {l : List AwsGroup} {k : String} {a : AwsGroup}
    (h : mapLookup (buildGroupMap l) k = some a) : a ∈ l ∧ a.displayName = k :=
  mapLookup_buildMap_some h

theorem mapLookup_buildGroupMap_none {l : List AwsGroup} {k : String} :
    mapLookup (buildGroupMap l) k = none ↔ ∀ a ∈ l, a.displayName ≠ k :=
  mapLookup_buildMap_none

theorem mapLookup_buildGroupMap_nodup {l : List AwsGroup}
    (hn : (l.map (fun g => g.displayName)).Nodup) {a : AwsGroup} (ha : a ∈ l) :
    mapLookup (buildGroupMap l) a.displayName = some a :=
  mapLookup_buildMap_nodup hn ha

/-! ## Membership characterizations of the diff-engine outputs -/

theorem mem_userAdds {awsUsers : List AwsUser} {googleUsers : List GoogleUser} {u : AwsUser} :
    u ∈ userAdds awsUsers googleUsers ↔
      ∃ g, g ∈ googleUsers ∧ mapLookup (buildUserMap awsUsers) g.primaryEmail = none ∧
        u = NewUser g.name.givenName g.name.familyName g.primaryEmail (!g.suspended) := by
  simp only [userAdds, getUserOperations, List.mem_filterMap]
  refine exists_congr fun g => and_congr_right fun _ => ?_
  cases h : mapLookup (buildUserMap awsUsers) g.primaryEmail with
  | none =>
    simp only [h, Option.isSome_none, Bool.false_eq_true, if_false, Option.some_inj]
    constructor
    · intro h1
      exact ⟨by simp, h1.symm⟩
    · rintro ⟨-, h2⟩
      exact h2.symm
  | some a => simp [h]

theorem mem_userUpdates {awsUsers : List AwsUser} {googleUsers : List GoogleUser} {u : AwsUser} :
    u ∈ userUpdates awsUsers googleUsers ↔
      ∃ g, g ∈ googleUsers ∧ ∃ a, mapLookup (buildUserMap awsUsers) g.primaryEmail = some a ∧
        userMismatch a g = true ∧
        u = NewUser g.name.givenName g.name.familyName g.primaryEmail (!g.suspended) := by
  simp only [userUpdates, getUserOperations, List.mem_filterMap]
  refine exists_congr fun g => and_congr_right fun _ => ?_
  cases h : mapLookup (buildUserMap awsUsers) g.primaryEmail with
  | none => simp [h]
  | some a =>
    by_cases hm : userMismatch a g
    · simp only [h, hm, if_true, Option.some_inj, exists_eq_left']
      constructor
      · intro h1
        exact ⟨by simp [hm], h1.symm⟩
      · rintro ⟨-, h2⟩
        exact h2.symm
    · simp [h, hm]

theorem mem_userEquals {awsUsers : List AwsUser} {googleUsers : List GoogleUser} {u : AwsUser} :
    u ∈ userEquals awsUsers googleUsers ↔
      ∃ g, g ∈ googleUsers ∧ ∃ a, mapLookup (buildUserMap awsUsers) g.primaryEmail = some a ∧
        userMismatch a g = false ∧ u = a := by
  simp only [userEquals, getUserOperations, List.mem_filterMap]
  refine exists_congr fun g => and_congr_right fun _ => ?_
  cases h : mapLookup (buildUserMap awsUsers) g.primaryEmail with
  | none => simp [h]
  | some a =>
    by_cases hm : userMismatch a g
    · simp [h, hm]
    · rw [Bool.not_eq_true] at hm
      simp only [h, hm, Bool.false_eq_true, if_false, Option.some_inj, exists_eq_left']
      constructor
      · intro h1
        exact ⟨by simp [hm], h1.symm⟩
      · rintro ⟨-, h2⟩
        exact h2.symm

theorem mem_userDeletes {awsUsers : List AwsUser} {googleUsers : List GoogleUser} {u : AwsUser} :
    u ∈ userDeletes awsUsers googleUsers ↔
      ∃ a, a ∈ awsUsers ∧ (∀ g ∈ googleUsers, g.primaryEmail ≠ a.username) ∧
        u = NewUser a.name.givenName a.name.familyName a.username a.active := by
  simp only [userDeletes, getUserOperations, List.mem_filterMap]
  refine exists_congr fun a => and_congr_right fun _ => ?_
  by_cases hc : (googleUsers.map (fun g => g.primaryEmail)).contains a.username = true
  · rw [if_pos hc]
    have h := List.elem_iff.1 hc
    simp only [List.mem_map] at h
    obtain ⟨g, hg, he⟩ := h
    constructor
    · intro h1
      cases h1
    · rintro ⟨hall, -⟩
      exact absurd he (hall g hg)
  · rw [if_neg hc, Option.some_inj]
    have h : a.username ∉ googleUsers.map (fun g => g.primaryEmail) :=
      fun hm => hc (List.elem_iff.2 hm)
    simp only [List.mem_map] at h
    push_neg at h
    constructor
    · intro h1
      exact ⟨fun g hg => h g hg, h1.symm⟩
    · rintro ⟨-, h2⟩
      exact h2.symm

theorem mem_groupAdds {awsGroups : List AwsGroup} {googleGroups : List GoogleGroup}
    {x : AwsGroup} :
    x ∈ groupAdds awsGroups googleGroups ↔
      ∃ g, g ∈ googleGroups ∧ mapLookup (buildGroupMap awsGroups) g.name = none ∧
        x = NewGroup g.name := by
  simp only [groupAdds, getGroupOperations, List.mem_filterMap]
  refine exists_congr fun g => and_congr_right fun _ => ?_
  cases h : mapLookup (buildGroupMap awsGroups) g.name with
  | none =>
    simp only [h, Option.isSome_none, Bool.false_eq_true, if_false, Option.some_inj]
    constructor
    · intro h1
      exact ⟨by simp, h1.symm⟩
    · rintro ⟨-, h2⟩
      exact h2.symm
  | some a => simp [h]

theorem mem_groupEquals {awsGroups : List AwsGroup} {googleGroups : List GoogleGroup}
    {x : AwsGroup} :
    x ∈ groupEquals awsGroups googleGroups ↔
      ∃ g, g ∈ googleGroups ∧ mapLookup (buildGroupMap awsGroups) g.name = some x := by
  simp only [groupEquals, getGroupOperations, List.mem_filterMap]

theorem mem_groupDeletes {awsGroups : List AwsGroup} {googleGroups : List GoogleGroup}
    {x : AwsGroup} :
    x ∈ groupDeletes awsGroups googleGroups ↔
      ∃ a, a ∈ awsGroups ∧ (∀ g ∈ googleGroups, g.name ≠ a.displayName) ∧
        x = NewGroup a.displayName := by
  simp only [groupDeletes, getGroupOperations, List.mem_filterMap]
  refine exists_congr fun a => and_congr_right fun _ => ?_
  by_cases hc : (googleGroups.map (fun g => g.name)).contains a.displayName = true
  · rw [if_pos hc]
    have h := List.elem_iff.1 hc
    simp only [List.mem_map] at h
    obtain ⟨g, hg, he⟩ := h
    constructor
    · intro h1
      cases h1
    · rintro ⟨hall, -⟩
      exact absurd he (hall g hg)
  · rw [if_neg hc, Option.some_inj]
    have h : a.displayName ∉ googleGroups.map (fun g => g.name) :=
      fun hm => hc (List.elem_iff.2 hm)
    simp only [List.mem_map] at h
    push_neg at h
    constructor
    · intro hx
      exact ⟨fun g hg => h g hg, hx.symm⟩
    · rintro ⟨-, hx⟩
      exact hx.symm

/-! ## Claim C3: group filter policy -/

theorem ignoreGroup_eq_contains (l : List String) (e : String) :
    ignoreGroup l e = l.contains e := by
  rw [Bool.eq_iff_iff]
  simp [ignoreGroup, List.any_eq_true, List.elem_iff]

theorem includeGroup_eq_contains (l : List String) (e : String) :
    includeGroup l e = l.contains e := by
  rw [Bool.eq_iff_iff]
  simp [includeGroup, List.any_eq_true, List.elem_iff]

/-- C3 counterexample: with no include-list configured (empty list) and
an empty ignore-list, the claim says every group participates in sync,
but the skip condition of `SyncGroups` excludes every group, because
`includeGroup` returns false on an empty include-list. -/
theorem c3_group_filter_counterexample :
    groupExcluded [] [] "group@example.com" = true ∧
      specGroupExcluded [] [] "group@example.com" = false := by
  decide

/-- C3 (amended): a group is excluded iff its email exactly matches an
ignore-list entry, or it matches no include-list entry, regardless of
whether an include-list is configured; in particular with an empty
include-list every group is excluded from `SyncGroups`, not included. -/
theorem c3_group_filter_amended :
    (∀ (ignoreGroups includeGroups : List String) (email : String),
        groupExcluded ignoreGroups includeGroups email
          = (ignoreGroups.contains email || !includeGroups.contains email)) ∧
    (∀ (ignoreGroups : List String) (email : String),
        groupExcluded ignoreGroups [] email = true) := by
  constructor
  · intro ig inc e
    rw [groupExcluded, ignoreGroup_eq_contains, includeGroup_eq_contains]
  · intro ig e
    simp [groupExcluded, includeGroup]

/-! ## Claim C4: user diff classification -/

/-- C4: keyed by primary email, `getUserOperations` classifies a
source-only key as `add` with a record built from the source attributes
and active = !suspended; a key present on both sides as `update`
exactly when the active flag mismatches the negated suspended flag or
a name differs (the update record is the whole replacement record built
from source attributes), and as `equal` otherwise; and a target-only
key as `delete`. -/
theorem c4_userOperations_classification
    (awsUsers : List AwsUser) (googleUsers : List GoogleUser)
    (hAws : (awsUsers.map (fun u => u.username)).Nodup)
    (hGoogle : (googleUsers.map (fun g => g.primaryEmail)).Nodup) :
    (∀ g ∈ googleUsers, (∀ a ∈ awsUsers, a.username ≠ g.primaryEmail) →
        NewUser g.name.givenName g.name.familyName g.primaryEmail (!g.suspended)
          ∈ userAdds awsUsers googleUsers) ∧
    (∀ g ∈ googleUsers, ∀ a ∈ awsUsers, a.username = g.primaryEmail →
        ((userUpdates awsUsers googleUsers).any (fun u => u.username == g.primaryEmail)
            = userMismatch a g) ∧
        ((userEquals awsUsers googleUsers).any (fun u => u.username == g.primaryEmail)
            = !userMismatch a g) ∧
        (userMismatch a g = true →
          NewUser g.name.givenName g.name.familyName g.primaryEmail (!g.suspended)
            ∈ userUpdates awsUsers googleUsers ∧
          ∀ u ∈ userUpdates awsUsers googleUsers, u.username = g.primaryEmail →
            u = NewUser g.name.givenName g.name.familyName g.primaryEmail (!g.suspended)) ∧
        (userMismatch a g = false → a ∈ userEquals awsUsers googleUsers)) ∧
    (∀ a ∈ awsUsers, (∀ g ∈ googleUsers, g.primaryEmail ≠ a.username) →
        NewUser a.name.givenName a.name.familyName a.username a.active
          ∈ userDeletes awsUsers googleUsers) := by
  refine ⟨?_, ?_, ?_⟩
  · intro g hg hall
    exact mem_userAdds.2 ⟨g, hg, mapLookup_buildUserMap_none.2 hall, rfl⟩
  · intro g hg a ha hk
    have hlook : mapLookup (buildUserMap awsUsers) g.primaryEmail = some a := by
      rw [← hk]
      exact mapLookup_buildUserMap_nodup hAws ha
    have upd_mem : ∀ u ∈ userUpdates awsUsers googleUsers, u.username = g.primaryEmail →
        userMismatch a g = true ∧
          u = NewUser g.name.givenName g.name.familyName g.primaryEmail (!g.suspended) := by
      intro u hu hku
      obtain ⟨g', hg', a', hl', hm', hu'⟩ := mem_userUpdates.1 hu
      have hkey : g'.primaryEmail = g.primaryEmail := by
        rw [hu'] at hku
        exact hku
      have hgg : g' = g := List.inj_on_of_nodup_map hGoogle hg' hg hkey
      subst hgg
      rw [hlook] at hl'
      cases hl'
      exact ⟨hm', hu'⟩
    have eq_mem : ∀ u ∈ userEquals awsUsers googleUsers, u.username = g.primaryEmail →
        userMismatch a g = false ∧ u = a := by
      intro u hu hku
      obtain ⟨g', hg', a', hl', hm', hu'⟩ := mem_userEquals.1 hu
      have ha' := mapLookup_buildUserMap_some hl'
      have hkey : g'.primaryEmail = g.primaryEmail := by
        rw [← ha'.2, ← hu']
        exact hku
      have hgg : g' = g := List.inj_on_of_nodup_map hGoogle hg' hg hkey
      subst hgg
      rw [hlook] at hl'
      cases hl'
      exact ⟨hm', hu'⟩
    refine ⟨?_, ?_, ?_, ?_⟩
    · cases hm : userMismatch a g with
      | true =>
        rw [List.any_eq_true]
        exact ⟨NewUser g.name.givenName g.name.familyName g.primaryEmail (!g.suspended),
          mem_userUpdates.2 ⟨g, hg, a, hlook, hm, rfl⟩, by simp [NewUser]⟩
      | false =>
        rw [List.any_eq_false]
        intro u hu
        simp only [beq_iff_eq]
        intro hku
        have := (upd_mem u hu hku).1
        rw [hm] at this
        cases this
    · cases hm : userMismatch a g with
      | true =>
        rw [Bool.not_true, List.any_eq_false]
        intro u hu
        simp only [beq_iff_eq]
        intro hku
        have := (eq_mem u hu hku).1
        rw [hm] at this
        cases this
      | false =>
        rw [Bool.not_false, List.any_eq_true]
        refine ⟨a, mem_userEquals.2 ⟨g, hg, a, hlook, hm, rfl⟩, ?_⟩
        simp [hk]
    · intro hm
      refine ⟨mem_userUpdates.2 ⟨g, hg, a, hlook, hm, rfl⟩, ?_⟩
      intro u hu hku
      exact (upd_mem u hu hku).2
    · intro hm
      exact mem_userEquals.2 ⟨g, hg, a, hlook, hm, rfl⟩
  · intro a ha hall
    exact mem_userDeletes.2 ⟨a, ha, hall, rfl⟩

/-- A concrete existing target user whose given name is stale. -/
def awsUserCarlOld : AwsUser :=
  { id := "1", username := "c@x.com", name := { givenName := "Old", familyName := "Lee" },
    active := true }

/-- Concrete target snapshot used by witnesses. -/
def awsSample : List AwsUser := [awsUserCarlOld]

/-- A concrete changed user shared by the witness snapshots. -/
def googleSampleCarl : GoogleUser :=
  { primaryEmail := "c@x.com", name := { givenName := "New", familyName := "Lee" },
    suspended := false }

/-- A concrete new user shared by the witness snapshots. -/
def googleSampleAnn : GoogleUser :=
  { primaryEmail := "a@x.com", name := { givenName := "Ann", familyName := "Poe" },
    suspended := false }

/-- Concrete source snapshot used by witnesses. -/
def googleSample : List GoogleUser :=
  [googleSampleCarl, googleSampleAnn]

/-- Witness for C4 at a concrete input. -/
theorem c4_userOperations_classification_witness :
    NewUser "Ann" "Poe" "a@x.com" true ∈ userAdds awsSample googleSample :=
  (c4_userOperations_classification awsSample googleSample (by decide) (by decide)).1
    googleSampleAnn (by decide) (by decide)

/-! ## Claim C5: every key is classified exactly once -/

@[simp]
theorem NewUser_username (givenName familyName email : String) (active : Bool) :
    (NewUser givenName familyName email active).username = email := rfl

@[simp]
theorem NewGroup_displayName (displayName : String) :
    (NewGroup displayName).displayName = displayName := rfl

/-- C5: when no two users share a primary email and no two groups share
a display name, every user key occurring in either snapshot lands in
exactly one of the four user sets of `getUserOperations`, and every
group key in exactly one of the three group sets of
`getGroupOperations`. -/
theorem c5_diff_partition
    (awsUsers : List AwsUser) (googleUsers : List GoogleUser)
    (awsGroups : List AwsGroup) (googleGroups : List GoogleGroup)
    (hAwsU : (awsUsers.map (fun u => u.username)).Nodup)
    (hGooU : (googleUsers.map (fun g => g.primaryEmail)).Nodup)
    (hAwsG : (awsGroups.map (fun x => x.displayName)).Nodup)
    (hGooG : (googleGroups.map (fun g => g.name)).Nodup) :
    (∀ k : String,
      ((∃ a ∈ awsUsers, a.username = k) ∨ (∃ g ∈ googleUsers, g.primaryEmail = k)) →
      ((userAdds awsUsers googleUsers).any (fun u => u.username == k)).toNat
        + ((userDeletes awsUsers googleUsers).any (fun u => u.username == k)).toNat
        + ((userUpdates awsUsers googleUsers).any (fun u => u.username == k)).toNat
        + ((userEquals awsUsers googleUsers).any (fun u => u.username == k)).toNat = 1) ∧
    (∀ k : String,
      ((∃ x ∈ awsGroups, x.displayName = k) ∨ (∃ g ∈ googleGroups, g.name = k)) →
      ((groupAdds awsGroups googleGroups).any (fun x => x.displayName == k)).toNat
        + ((groupDeletes awsGroups googleGroups).any (fun x => x.displayName == k)).toNat
        + ((groupEquals awsGroups googleGroups).any (fun x => x.displayName == k)).toNat
        = 1) := by
  constructor
  · intro k hk
    by_cases hGk : ∃ g ∈ googleUsers, g.primaryEmail = k
    · obtain ⟨g, hg, hgk⟩ := hGk
      have hdel : (userDeletes awsUsers googleUsers).any (fun u => u.username == k)
          = false := by
        rw [List.any_eq_false]
        intro u hu
        simp only [beq_iff_eq]
        intro hku
        obtain ⟨a', ha', hall, hu'⟩ := mem_userDeletes.1 hu
        rw [hu', NewUser_username] at hku
        exact hall g hg (hgk.trans hku.symm)
      by_cases hAk : ∃ a ∈ awsUsers, a.username = k
      · obtain ⟨a, ha, hak⟩ := hAk
        have hlook : mapLookup (buildUserMap awsUsers) g.primaryEmail = some a := by
          rw [hgk, ← hak]
          exact mapLookup_buildUserMap_nodup hAwsU ha
        have hadd : (userAdds awsUsers googleUsers).any (fun u => u.username == k)
            = false := by
          rw [List.any_eq_false]
          intro u hu
          simp only [beq_iff_eq]
          intro hku
          obtain ⟨g', hg', hnone, hu'⟩ := mem_userAdds.1 hu
          rw [hu', NewUser_username] at hku
          have hgg : g' = g := List.inj_on_of_nodup_map hGooU hg' hg (hku.trans hgk.symm)
          rw [hgg, hlook] at hnone
          cases hnone
        cases hm : userMismatch a g with
        | true =>
          have hupd : (userUpdates awsUsers googleUsers).any (fun u => u.username == k)
              = true := by
            rw [List.any_eq_true]
            refine ⟨NewUser g.name.givenName g.name.familyName g.primaryEmail (!g.suspended),
              mem_userUpdates.2 ⟨g, hg, a, hlook, hm, rfl⟩, ?_⟩
            simp [hgk]
          have heq : (userEquals awsUsers googleUsers).any (fun u => u.username == k)
              = false := by
            rw [List.any_eq_false]
            intro u hu
            simp only [beq_iff_eq]
            intro hku
            obtain ⟨g', hg', a', hl', hm', hu'⟩ := mem_userEquals.1 hu
            have ha'' := mapLookup_buildUserMap_some hl'
            have hkey : g'.primaryEmail = g.primaryEmail := by
              rw [← ha''.2, ← hu', hku, hgk]
            have hgg : g' = g := List.inj_on_of_nodup_map hGooU hg' hg hkey
            subst hgg
            rw [hlook] at hl'
            cases hl'
            rw [hm] at hm'
            cases hm'
          simp [hadd, hdel, hupd, heq]
        | false =>
          have heq : (userEquals awsUsers googleUsers).any (fun u => u.username == k)
              = true := by
            rw [List.any_eq_true]
            refine ⟨a, mem_userEquals.2 ⟨g, hg, a, hlook, hm, rfl⟩, ?_⟩
            simp [hak]
          have hupd : (userUpdates awsUsers googleUsers).any (fun u => u.username == k)
              = false := by
            rw [List.any_eq_false]
            intro u hu
            simp only [beq_iff_eq]
            intro hku
            obtain ⟨g', hg', a', hl', hm', hu'⟩ := mem_userUpdates.1 hu
            rw [hu', NewUser_username] at hku
            have hgg : g' = g := List.inj_on_of_nodup_map hGooU hg' hg (hku.trans hgk.symm)
            subst hgg
            rw [hlook] at hl'
            cases hl'
            rw [hm] at hm'
            cases hm'
          simp [hadd, hdel, hupd, heq]
      · have hnone : mapLookup (buildUserMap awsUsers) k = none := by
          rw [mapLookup_buildUserMap_none]
          intro a ha hak
          exact hAk ⟨a, ha, hak⟩
        have hadd : (userAdds awsUsers googleUsers).any (fun u => u.username == k)
            = true := by
          rw [List.any_eq_true]
          refine ⟨NewUser g.name.givenName g.name.familyName g.primaryEmail (!g.suspended),
            mem_userAdds.2 ⟨g, hg, by rw [hgk]; exact hnone, rfl⟩, ?_⟩
          simp [hgk]
        have hupd : (userUpdates awsUsers googleUsers).any (fun u => u.username == k)
            = false := by
          rw [List.any_eq_false]
          intro u hu
          simp only [beq_iff_eq]
          intro hku
          obtain ⟨g', hg', a', hl', hm', hu'⟩ := mem_userUpdates.1 hu
          rw [hu', NewUser_username] at hku
          rw [hku] at hl'
          rw [hnone] at hl'
          cases hl'
        have heq : (userEquals awsUsers googleUsers).any (fun u => u.username == k)
            = false := by
          rw [List.any_eq_false]
          intro u hu
          simp only [beq_iff_eq]
          intro hku
          obtain ⟨g', hg', a', hl', hm', hu'⟩ := mem_userEquals.1 hu
          have ha'' := mapLookup_buildUserMap_some hl'
          rw [hu'] at hku
          exact hAk ⟨a', ha''.1, hku⟩
        have hdel2 : (userDeletes awsUsers googleUsers).any (fun u => u.username == k)
            = false := hdel
        simp [hadd, hdel2, hupd, heq]
    · have hAk : ∃ a ∈ awsUsers, a.username = k := by
        rcases hk with h | h
        · exact h
        · exact absurd h hGk
      obtain ⟨a, ha, hak⟩ := hAk
      have hGall : ∀ g ∈ googleUsers, g.primaryEmail ≠ k := by
        intro g hg hgk
        exact hGk ⟨g, hg, hgk⟩
      have hdel : (userDeletes awsUsers googleUsers).any (fun u => u.username == k)
          = true := by
        rw [List.any_eq_true]
        refine ⟨NewUser a.name.givenName a.name.familyName a.username a.active,
          mem_userDeletes.2 ⟨a, ha, fun g hg => by rw [hak]; exact hGall g hg, rfl⟩, ?_⟩
        simp [hak]
      have hadd : (userAdds awsUsers googleUsers).any (fun u => u.username == k)
          = false := by
        rw [List.any_eq_false]
        intro u hu
        simp only [beq_iff_eq]
        intro hku
        obtain ⟨g', hg', hnone, hu'⟩ := mem_userAdds.1 hu
        rw [hu', NewUser_username] at hku
        exact hGall g' hg' hku
      have hupd : (userUpdates awsUsers googleUsers).any (fun u => u.username == k)
          = false := by
        rw [List.any_eq_false]
        intro u hu
        simp only [beq_iff_eq]
        intro hku
        obtain ⟨g', hg', a', hl', hm', hu'⟩ := mem_userUpdates.1 hu
        rw [hu', NewUser_username] at hku
        exact hGall g' hg' hku
      have heq : (userEquals awsUsers googleUsers).any (fun u => u.username == k)
          = false := by
        rw [List.any_eq_false]
        intro u hu
        simp only [beq_iff_eq]
        intro hku
        obtain ⟨g', hg', a', hl', hm', hu'⟩ := mem_userEquals.1 hu
        have ha'' := mapLookup_buildUserMap_some hl'
        have : g'.primaryEmail = k := by
          rw [← ha''.2, ← hu']
          exact hku
        exact hGall g' hg' this
      simp [hadd, hdel, hupd, heq]
  · intro k hk
    by_cases hGk : ∃ g ∈ googleGroups, g.name = k
    · obtain ⟨g, hg, hgk⟩ := hGk
      have hdel : (groupDeletes awsGroups googleGroups).any (fun x => x.displayName == k)
          = false := by
        rw [List.any_eq_false]
        intro x hx
        simp only [beq_iff_eq]
        intro hkx
        obtain ⟨a', ha', hall, hx'⟩ := mem_groupDeletes.1 hx
        rw [hx', NewGroup_displayName] at hkx
        exact hall g hg (hgk.trans hkx.symm)
      by_cases hAk : ∃ x ∈ awsGroups, x.displayName = k
      · obtain ⟨a, ha, hak⟩ := hAk
        have hlook : mapLookup (buildGroupMap awsGroups) g.name = some a := by
          rw [hgk, ← hak]
          exact mapLookup_buildGroupMap_nodup hAwsG ha
        have hadd : (groupAdds awsGroups googleGroups).any (fun x => x.displayName == k)
            = false := by
          rw [List.any_eq_false]
          intro x hx
          simp only [beq_iff_eq]
          intro hkx
          obtain ⟨g', hg', hnone, hx'⟩ := mem_groupAdds.1 hx
          rw [hx', NewGroup_displayName] at hkx
          have hgg : g' = g := List.inj_on_of_nodup_map hGooG hg' hg (hkx.trans hgk.symm)
          rw [hgg, hlook] at hnone
          cases hnone
        have heq : (groupEquals awsGroups googleGroups).any (fun x => x.displayName == k)
            = true := by
          rw [List.any_eq_true]
          refine ⟨a, mem_groupEquals.2 ⟨g, hg, hlook⟩, ?_⟩
          simp [hak]
        simp [hadd, hdel, heq]
      · have hnone : mapLookup (buildGroupMap awsGroups) k = none := by
          rw [mapLookup_buildGroupMap_none]
          intro x hx hkx
          exact hAk ⟨x, hx, hkx⟩
        have hadd : (groupAdds awsGroups googleGroups).any (fun x => x.displayName == k)
            = true := by
          rw [List.any_eq_true]
          refine ⟨NewGroup g.name, mem_groupAdds.2 ⟨g, hg, by rw [hgk]; exact hnone, rfl⟩, ?_⟩
          simp [hgk]
        have heq : (groupEquals awsGroups googleGroups).any (fun x => x.displayName == k)
            = false := by
          rw [List.any_eq_false]
          intro x hx
          simp only [beq_iff_eq]
          intro hkx
          obtain ⟨g', hg', hl'⟩ := mem_groupEquals.1 hx
          have hx'' := mapLookup_buildGroupMap_some hl'
          exact hAk ⟨x, hx''.1, hkx⟩
        simp [hadd, hdel, heq]
    · have hAk : ∃ x ∈ awsGroups, x.displayName = k := by
        rcases hk with h | h
        · exact h
        · exact absurd h hGk
      obtain ⟨a, ha, hak⟩ := hAk
      have hGall : ∀ g ∈ googleGroups, g.name ≠ k := by
        intro g hg hgk
        exact hGk ⟨g, hg, hgk⟩
      have hdel : (groupDeletes awsGroups googleGroups).any (fun x => x.displayName == k)
          = true := by
        rw [List.any_eq_true]
        refine ⟨NewGroup a.displayName,
          mem_groupDeletes.2 ⟨a, ha, fun g hg => by rw [hak]; exact hGall g hg, rfl⟩, ?_⟩
        simp [hak]
      have hadd : (groupAdds awsGroups googleGroups).any (fun x => x.displayName == k)
          = false := by
        rw [List.any_eq_false]
        intro x hx
        simp only [beq_iff_eq]
        intro hkx
        obtain ⟨g', hg', hnone, hx'⟩ := mem_groupAdds.1 hx
        rw [hx', NewGroup_displayName] at hkx
        exact hGall g' hg' hkx
      have heq : (groupEquals awsGroups googleGroups).any (fun x => x.displayName == k)
          = false := by
        rw [List.any_eq_false]
        intro x hx
        simp only [beq_iff_eq]
        intro hkx
        obtain ⟨g', hg', hl'⟩ := mem_groupEquals.1 hx
        have hx'' := mapLookup_buildGroupMap_some hl'
        have : g'.name = k := by
          rw [← hx''.2]
          exact hkx
        exact hGall g' hg' this
      simp [hadd, hdel, heq]

/-- Concrete target group snapshot used by witnesses. -/
def awsGroupSample : List AwsGroup :=
  [{ id := "g1", displayName := "eng@x.com" }]

/-- Concrete source group snapshot used by witnesses. -/
def googleGroupSample : List GoogleGroup :=
  [{ name := "ops@x.com", email := "ops@x.com" }]

/-- Witness for C5 at a concrete input. -/
theorem c5_diff_partition_witness :
    ((userAdds awsSample googleSample).any (fun u => u.username == "a@x.com")).toNat
      + ((userDeletes awsSample googleSample).any (fun u => u.username == "a@x.com")).toNat
      + ((userUpdates awsSample googleSample).any (fun u => u.username == "a@x.com")).toNat
      + ((userEquals awsSample googleSample).any (fun u => u.username == "a@x.com")).toNat
      = 1 :=
  (c5_diff_partition awsSample googleSample awsGroupSample googleGroupSample
    (by decide) (by decide) (by decide) (by decide)).1 "a@x.com"
    (Or.inr ⟨googleSampleAnn, by decide, rfl⟩)

/-! ## Claim C7: per-group membership classification -/

theorem mapLookup_map_entry {α β : Type} (f : String → α → β) (l : List (String × α))
    (k : String) :
    mapLookup (l.map (fun p => (p.1, f p.1 p.2))) k = (mapLookup l k).map (f k) := by
  induction l with
  | nil => rfl
  | cons p t ih =>
    obtain ⟨k', v⟩ := p
    by_cases hk : k' = k
    · subst hk
      simp [mapLookup]
    · simp [mapLookup, hk, ih]

theorem mapLookup_eq_of_nodup_mem {α : Type} {l : List (String × α)}
    (hn : (l.map Prod.fst).Nodup) {k : String} {v : α} (h : (k, v) ∈ l) :
    mapLookup l k = some v := by
  induction l with
  | nil => simp at h
  | cons p t ih =>
    obtain ⟨k', v'⟩ := p
    rcases List.mem_cons.1 h with h' | h'
    · obtain ⟨h1, h2⟩ := Prod.mk.injEq .. ▸ h'
      subst h1
      subst h2
      simp [mapLookup]
    · have hk : k' ≠ k := by
        intro he
        subst he
        exact (List.nodup_cons.1 hn).1 (List.mem_map.2 ⟨(k', v), h', rfl⟩)
      simpa [mapLookup, hk] using ih (List.nodup_cons.1 hn).2 h'

/-- The member-email set of a source group, as `getGroupUsersOperations`
computes it: `mbG[group]`, empty when the group is absent from the
source snapshot. -/
def sourceMemberEmails (gGroupsUsers : List (String × List GoogleUser)) (group : String) :
    List String :=
  (mapLookup (googleMemberEmails gGroupsUsers) group).getD []

/-- C7: for every group and every member of that group's target-side
member set, the membership diff classifies the member as `delete`
exactly when the member's username is absent from the source group's
member-email set, and as `equal` exactly when it is present in both. -/
theorem c7_groupUsersOperations_classification
    (gGroupsUsers : List (String × List GoogleUser))
    (awsGroupsUsers : List (String × List AwsUser))
    (hn : (awsGroupsUsers.map Prod.fst).Nodup)
    (group : String) (members : List AwsUser)
    (hmem : (group, members) ∈ awsGroupsUsers) :
    ∀ u ∈ members,
      (u ∈ (mapLookup (getGroupUsersOperations gGroupsUsers awsGroupsUsers).1 group).getD []
        ↔ (sourceMemberEmails gGroupsUsers group).contains u.username = false) ∧
      (u ∈ (mapLookup (getGroupUsersOperations gGroupsUsers awsGroupsUsers).2 group).getD []
        ↔ (sourceMemberEmails gGroupsUsers group).contains u.username = true) := by
  intro u hu
  have hl : mapLookup awsGroupsUsers group = some members :=
    mapLookup_eq_of_nodup_mem hn hmem
  have hdel : (getGroupUsersOperations gGroupsUsers awsGroupsUsers).1
      = awsGroupsUsers.map (fun p => (p.1,
          (p.2.partition (fun w =>
            !((mapLookup (googleMemberEmails gGroupsUsers) p.1).getD []).contains
              w.username)).1)) := by
    simp [getGroupUsersOperations, List.map_map, Function.comp]
  have heqs : (getGroupUsersOperations gGroupsUsers awsGroupsUsers).2
      = awsGroupsUsers.map (fun p => (p.1,
          (p.2.partition (fun w =>
            !((mapLookup (googleMemberEmails gGroupsUsers) p.1).getD []).contains
              w.username)).2)) := by
    simp [getGroupUsersOperations, List.map_map, Function.comp]
  rw [hdel, heqs,
    @mapLookup_map_entry (List AwsUser) (List AwsUser)
      (fun k v => (v.partition (fun w =>
        !((mapLookup (googleMemberEmails gGroupsUsers) k).getD []).contains w.username)).1)
      awsGroupsUsers group,
    @mapLookup_map_entry (List AwsUser) (List AwsUser)
      (fun k v => (v.partition (fun w =>
        !((mapLookup (googleMemberEmails gGroupsUsers) k).getD []).contains w.username)).2)
      awsGroupsUsers group,
    hl]
  simp [List.partition_eq_filter_filter, Function.comp, List.mem_filter,
    sourceMemberEmails, hu]

/-- Concrete per-group member snapshots used by the C7 witness. -/
def googleGroupsUsersSample : List (String × List GoogleUser) :=
  [("G", [googleSampleAnn])]

/-- A concrete AWS user absent from the source group. -/
def awsUserBob : AwsUser :=
  { id := "2", username := "b@x.com", name := { givenName := "Bob", familyName := "Roe" },
    active := true }

/-- A concrete AWS user present in the source group. -/
def awsUserAnn : AwsUser :=
  { id := "3", username := "a@x.com", name := { givenName := "Ann", familyName := "Poe" },
    active := true }

/-- Concrete AWS per-group member snapshot used by the C7 witness. -/
def awsGroupsUsersSample : List (String × List AwsUser) :=
  [("G", [awsUserBob, awsUserAnn])]

/-- Witness for C7 at a concrete input. -/
theorem c7_groupUsersOperations_classification_witness :
    awsUserBob ∈
      (mapLookup (getGroupUsersOperations googleGroupsUsersSample awsGroupsUsersSample).1
        "G").getD [] :=
  ((c7_groupUsersOperations_classification googleGroupsUsersSample awsGroupsUsersSample
    (by decide) "G" [awsUserBob, awsUserAnn] (by decide)) awsUserBob
    (by decide)).1.mpr (by decide)

/-! ## Claim C9: the source snapshot collector (`getGoogleGroupsAndUsers`,
sync.go lines 562-627).  The Google directory collaborator is passed as
two oracle functions returning `Except`-valued results. -/

/-- The member-resolution inner loop of `getGoogleGroupsAndUsers`
(sync.go lines 582-612): each member address is skipped when ignored,
of `GROUP` type, or unresolvable (empty query result); otherwise the
first user of the query result is appended to the group's member list
and recorded in the unique-user map under the member email if that key
is absent. -/
def resolveMembers (ignoreUsers : List String)
    (getUsers : String → Except String (List GoogleUser)) :
    List GoogleMember → List (String × GoogleUser) →
    Except String (List GoogleUser × List (String × GoogleUser))
  | [], gUniqUsers => .ok ([], gUniqUsers)
  | m :: rest, gUniqUsers =>
    if ignoreUser ignoreUsers m.email then
      resolveMembers ignoreUsers getUsers rest gUniqUsers
    else if m.type == "GROUP" then
      resolveMembers ignoreUsers getUsers rest gUniqUsers
    else
      match getUsers ("email:" ++ m.email) with
      | .error e => .error e
      | .ok [] => resolveMembers ignoreUsers getUsers rest gUniqUsers
      | .ok (u :: _) =>
        let gUniqUsers' :=
          if (mapLookup gUniqUsers m.email).isSome then gUniqUsers
          else gUniqUsers ++ [(m.email, u)]
        match resolveMembers ignoreUsers getUsers rest gUniqUsers' with
        | .error e => .error e
        | .ok (membersUsers, gUniqUsers'') => .ok (u :: membersUsers, gUniqUsers'')

/-- The group loop of `getGoogleGroupsAndUsers` (sync.go lines
567-618): skips ignored groups, fetches members, resolves them, and
records the group's member list under the group name. -/
def collectGroupsUsers (ignoreUsers ignoreGroups : List String)
    (getGroupMembers : GoogleGroup → Except String (List GoogleMember))
    (getUsers : String → Except String (List GoogleUser)) :
    List GoogleGroup → List (String × GoogleUser) →
    Except String (List (String × List GoogleUser) × List (String × GoogleUser))
  | [], gUniqUsers => .ok ([], gUniqUsers)
  | g :: rest, gUniqUsers =>
    if ignoreGroup ignoreGroups g.email then
      collectGroupsUsers ignoreUsers ignoreGroups getGroupMembers getUsers rest gUniqUsers
    else
      match getGroupMembers g with
      | .error e => .error e
      | .ok groupMembers =>
        match resolveMembers ignoreUsers getUsers groupMembers gUniqUsers with
        | .error e => .error e
        | .ok (membersUsers, gUniqUsers') =>
          match collectGroupsUsers ignoreUsers ignoreGroups getGroupMembers getUsers rest
              gUniqUsers' with
          | .error e => .error e
          | .ok (gGroupsUsers, gUniqUsers'') =>
            .ok ((g.name, membersUsers) :: gGroupsUsers, gUniqUsers'')

/-- `getGoogleGroupsAndUsers` (sync.go lines 562-627): returns the flat
user list (the values of the unique-user map) and the per-group member
map. -/
def getGoogleGroupsAndUsers (ignoreUsers ignoreGroups : List String)
    (getGroupMembers : GoogleGroup → Except String (List GoogleMember))
    (getUsers : String → Except String (List GoogleUser))
    (googleGroups : List GoogleGroup) :
    Except String (List GoogleUser × List (String × List GoogleUser)) :=
  match collectGroupsUsers ignoreUsers ignoreGroups getGroupMembers getUsers googleGroups [] with
  | .error e => .error e
  | .ok (gGroupsUsers, gUniqUsers) => .ok (gUniqUsers.map (fun p => p.2), gGroupsUsers)

/-- A concrete user whose primary email differs from one of its member
addresses (an alias). -/
def googleUserPat : GoogleUser :=
  { primaryEmail := "primary@x.com", name := { givenName := "Pat", familyName := "Kim" },
    suspended := false }

/-- A member reference through an alias address. -/
def memberViaAlias : GoogleMember := { email := "alias@x.com", type := "USER" }

/-- A member reference through the primary address. -/
def memberViaPrimary : GoogleMember := { email := "primary@x.com", type := "USER" }

/-- The concrete group carrying both member references. -/
def aliasedGroup : GoogleGroup := { name := "G", email := "g@x.com" }

/-- A concrete member-listing oracle. -/
def sampleGetGroupMembers : GoogleGroup → Except String (List GoogleMember) :=
  fun _ => .ok [memberViaAlias, memberViaPrimary]

/-- A concrete user-resolution oracle: both the alias and the primary
address resolve to the same user record. -/
def sampleGetUsers : String → Except String (List GoogleUser) :=
  fun q =>
    if q == "email:alias@x.com" || q == "email:primary@x.com" then .ok [googleUserPat]
    else .ok []

/-- C9 counterexample: when the same user is reachable through two
distinct member addresses, the flat user list returned by
`getGoogleGroupsAndUsers` contains two entries with the same primary
email, so it is not unique by primary email. -/
theorem c9_snapshot_dedup_counterexample :
    getGoogleGroupsAndUsers [] [] sampleGetGroupMembers sampleGetUsers [aliasedGroup]
      = .ok ([googleUserPat, googleUserPat], [("G", [googleUserPat, googleUserPat])]) ∧
    ¬ ([googleUserPat, googleUserPat].map (fun u => u.primaryEmail)).Nodup := by
  constructor
  · rfl
  · decide

theorem mapLookup_eq_none_iff {α : Type} {m : List (String × α)} {k : String} :
    mapLookup m k = none ↔ k ∉ m.map Prod.fst := by
  induction m with
  | nil => simp [mapLookup]
  | cons p t ih =>
    obtain ⟨k', v⟩ := p
    by_cases hk : k' = k
    · subst hk
      simp [mapLookup]
    · simp only [mapLookup, if_neg hk, ih, List.map_cons, List.mem_cons, not_or]
      constructor
      · intro h
        exact ⟨fun he => hk he.symm, h⟩
      · intro h
        exact h.2

/-- Invariant of the unique-user map threaded through the collector:
its keys (member emails) are distinct, and every value is the head of
the resolution of its own key. -/
def UniqInv (getUsers : String → Except String (List GoogleUser))
    (gUniqUsers : List (String × GoogleUser)) : Prop :=
  (gUniqUsers.map Prod.fst).Nodup ∧
    ∀ p ∈ gUniqUsers, ∃ tail, getUsers ("email:" ++ p.1) = .ok (p.2 :: tail)

theorem resolveMembers_inv (ignoreUsers : List String)
    (getUsers : String → Except String (List GoogleUser)) :
    ∀ (members : List GoogleMember) (gUniqUsers : List (String × GoogleUser))
      (out : List GoogleUser × List (String × GoogleUser)),
      UniqInv getUsers gUniqUsers →
      resolveMembers ignoreUsers getUsers members gUniqUsers = .ok out →
      UniqInv getUsers out.2 := by
  intro members
  induction members with
  | nil =>
    intro gUniqUsers out hinv hok
    simp only [resolveMembers, Except.ok.injEq] at hok
    rw [← hok]
    exact hinv
  | cons m rest ih =>
    intro gUniqUsers out hinv hok
    simp only [resolveMembers] at hok
    split at hok
    · exact ih _ _ hinv hok
    · split at hok
      · exact ih _ _ hinv hok
      · split at hok
        next e hq => cases hok
        next hq => exact ih _ _ hinv hok
        next u tail hq =>
          split at hok
          next e hrec => cases hok
          next ms uniqEnd hrec =>
            simp only [Except.ok.injEq] at hok
            rw [← hok]
            by_cases hsome : (mapLookup gUniqUsers m.email).isSome = true
            · rw [if_pos hsome] at hrec
              exact ih gUniqUsers (ms, uniqEnd) hinv hrec
            · rw [if_neg hsome] at hrec
              have hinv' : UniqInv getUsers (gUniqUsers ++ [(m.email, u)]) := by
                constructor
                · rw [List.map_append, List.nodup_append]
                  refine ⟨hinv.1, List.nodup_singleton _, ?_⟩
                  intro x hx hx'
                  simp only [List.map_cons, List.map_nil, List.mem_singleton] at hx'
                  subst hx'
                  have hnone : mapLookup gUniqUsers m.email = none := by
                    rw [← Option.not_isSome_iff_eq_none]
                    exact hsome
                  exact (mapLookup_eq_none_iff.1 hnone) hx
                · intro p hp
                  rcases List.mem_append.1 hp with hp' | hp'
                  · exact hinv.2 p hp'
                  · simp only [List.mem_singleton] at hp'
                    subst hp'
                    exact ⟨tail, hq⟩
              exact ih (gUniqUsers ++ [(m.email, u)]) (ms, uniqEnd) hinv' hrec

theorem collectGroupsUsers_inv (ignoreUsers ignoreGroups : List String)
    (getGroupMembers : GoogleGroup → Except String (List GoogleMember))
    (getUsers : String → Except String (List GoogleUser)) :
    ∀ (googleGroups : List GoogleGroup) (gUniqUsers : List (String × GoogleUser))
      (out : List (String × List GoogleUser) × List (String × GoogleUser)),
      UniqInv getUsers gUniqUsers →
      collectGroupsUsers ignoreUsers ignoreGroups getGroupMembers getUsers googleGroups
        gUniqUsers = .ok out →
      UniqInv getUsers out.2 := by
  intro googleGroups
  induction googleGroups with
  | nil =>
    intro gUniqUsers out hinv hok
    simp only [collectGroupsUsers, Except.ok.injEq] at hok
    rw [← hok]
    exact hinv
  | cons g rest ih =>
    intro gUniqUsers out hinv hok
    simp only [collectGroupsUsers] at hok
    split at hok
    · exact ih _ _ hinv hok
    · split at hok
      next e hm => cases hok
      next groupMembers hm =>
        split at hok
        next e hres => cases hok
        next membersUsers gUniqUsers' hres =>
          split at hok
          next e hrec => cases hok
          next ggu uniqEnd hrec =>
            simp only [Except.ok.injEq] at hok
            rw [← hok]
            exact ih gUniqUsers' (ggu, uniqEnd) (resolveMembers_inv ignoreUsers getUsers
              groupMembers gUniqUsers (membersUsers, gUniqUsers') hinv hres) hrec

/-- C9 (amended): the flat user list returned by
`getGoogleGroupsAndUsers` is unique by member address, not by primary
email: it has exactly one entry per distinct retained member email
(each entry being the head of that address's resolution), so a user
reachable through several groups under the same address appears once,
while distinct member addresses resolving to the same user yield
distinct entries that may share a primary email. -/
theorem c9_snapshot_dedup_amended (ignoreUsers ignoreGroups : List String)
    (getGroupMembers : GoogleGroup → Except String (List GoogleMember))
    (getUsers : String → Except String (List GoogleUser))
    (googleGroups : List GoogleGroup)
    (users : List GoogleUser) (gGroupsUsers : List (String × List GoogleUser))
    (hok : getGoogleGroupsAndUsers ignoreUsers ignoreGroups getGroupMembers getUsers
      googleGroups = .ok (users, gGroupsUsers)) :
    ∃ pairs : List (String × GoogleUser),
      users = pairs.map (fun p => p.2) ∧
      (pairs.map Prod.fst).Nodup ∧
      ∀ p ∈ pairs, ∃ tail, getUsers ("email:" ++ p.1) = .ok (p.2 :: tail) := by
  unfold getGoogleGroupsAndUsers at hok
  cases hc : collectGroupsUsers ignoreUsers ignoreGroups getGroupMembers getUsers
      googleGroups [] with
  | error e =>
    rw [hc] at hok
    cases hok
  | ok out =>
    obtain ⟨ggu, uniqEnd⟩ := out
    rw [hc] at hok
    simp only [Except.ok.injEq, Prod.mk.injEq] at hok
    have hinv0 : UniqInv getUsers [] := ⟨List.nodup_nil, by simp⟩
    have hinv := collectGroupsUsers_inv ignoreUsers ignoreGroups getGroupMembers getUsers
      googleGroups [] (ggu, uniqEnd) hinv0 hc
    exact ⟨uniqEnd, hok.1.symm, hinv.1, hinv.2⟩

/-- Witness for C9 (amended) at the concrete counterexample input: the
two returned entries arise from the two distinct member addresses. -/
theorem c9_snapshot_dedup_amended_witness :
    ∃ pairs : List (String × GoogleUser),
      [googleUserPat, googleUserPat] = pairs.map (fun p => p.2) ∧
      (pairs.map Prod.fst).Nodup ∧
      ∀ p ∈ pairs, ∃ tail, sampleGetUsers ("email:" ++ p.1) = .ok (p.2 :: tail) :=
  c9_snapshot_dedup_amended [] [] sampleGetGroupMembers sampleGetUsers [aliasedGroup]
    [googleUserPat, googleUserPat] [("G", [googleUserPat, googleUserPat])] (by rfl)

/-! ## The apply pipeline of `SyncGroupsUsers` (sync.go lines 336-558)

The AWS SCIM store is embedded as an oracle record of `Except`-valued
methods, following the target-store capability contract of spec
section 6.  Every call the pipeline makes is recorded in a trace
together with the error it produced, if any, so the temporal claims
(phase ordering, abort-on-first-error, conflict swallowing) are
statements about traces. -/

/-- Errors returned by the target store: `aws.ErrUserNotFound` or
`aws.ErrGroupNotFound`, an `aws.ErrHttpNotOK` with its status code, or
any other error. -/
inductive StoreErr : Type
  | notFound : StoreErr
  | http : Nat → StoreErr
  | other : String → StoreErr
deriving DecidableEq

/-- Modelled from the spec: the target-store capability of spec
section 6 (the `aws` package client is outside `src/`), as a record of
deterministic `Except`-valued methods. -/
structure AwsStore where
  findUserByEmail : String → Except StoreErr AwsUser
  deleteUser : AwsUser → Except StoreErr Unit
  updateUser : AwsUser → Except StoreErr AwsUser
  createUser : AwsUser → Except StoreErr AwsUser
  createGroup : AwsGroup → Except StoreErr AwsGroup
  isUserInGroup : AwsUser → AwsGroup → Except StoreErr Bool
  addUserToGroup : AwsUser → AwsGroup → Except StoreErr Unit
  removeUserFromGroup : AwsUser → AwsGroup → Except StoreErr Unit
  findGroupByDisplayName : String → Except StoreErr AwsGroup
  deleteGroup : AwsGroup → Except StoreErr Unit

/-- One target-store call, with its arguments. -/
inductive StoreCall : Type
  | findUserByEmail : String → StoreCall
  | deleteUser : AwsUser → StoreCall
  | updateUser : AwsUser → StoreCall
  | createUser : AwsUser → StoreCall
  | createGroup : AwsGroup → StoreCall
  | isUserInGroup : AwsUser → AwsGroup → StoreCall
  | addUserToGroup : AwsUser → AwsGroup → StoreCall
  | removeUserFromGroup : AwsUser → AwsGroup → StoreCall
  | findGroupByDisplayName : String → StoreCall
  | deleteGroup : AwsGroup → StoreCall
deriving DecidableEq

/-- A trace event: the call made, and the error it returned if it
failed. -/
abbrev Event : Type := StoreCall × Option StoreErr

/-- The result of a pipeline phase: its trace of calls and the error
that aborted it, if any. -/
abbrev PhaseOut : Type := List Event × Option StoreErr

/-- Prepend a successful or swallowed event to a phase result. -/
def prependEv (ev : Event) (p : PhaseOut) : PhaseOut :=
  (ev :: p.1, p.2)

/-- Sequential composition of two pipeline stages, as the Go control
flow does it: if the first stage returned an error, the run stops
there and the second stage contributes nothing. -/
def seqPhase (a b : PhaseOut) : PhaseOut :=
  match a with
  | (t, some e) => (t, some e)
  | (t, none) => (t ++ b.1, b.2)

/-- Run a list of pipeline stages in order, stopping at the first
error. -/
def runPhases : List PhaseOut → PhaseOut
  | [] => ([], none)
  | p :: ps => seqPhase p (runPhases ps)

/-- Phase 1 of `SyncGroupsUsers` (sync.go lines 396-412): for each
user to delete, re-resolve by email, then delete the found record;
any error from either call, including not-found, aborts the run. -/
def deleteAwsUsers (s : AwsStore) : List AwsUser → PhaseOut
  | [] => ([], none)
  | awsUser :: rest =>
    match s.findUserByEmail awsUser.username with
    | .error e => ([(.findUserByEmail awsUser.username, some e)], some e)
    | .ok awsUserFull =>
      prependEv (.findUserByEmail awsUser.username, none)
        (match s.deleteUser awsUserFull with
         | .error e => ([(.deleteUser awsUserFull, some e)], some e)
         | .ok _ => prependEv (.deleteUser awsUserFull, none) (deleteAwsUsers s rest))

/-- Phase 2 of `SyncGroupsUsers` (sync.go lines 413-430): for each
user to update, re-resolve by email, then pass the record returned by
the lookup — not the update record computed by the diff engine — to
`UpdateUser`. -/
def updateAwsUsers (s : AwsStore) : List AwsUser → PhaseOut
  | [] => ([], none)
  | awsUser :: rest =>
    match s.findUserByEmail awsUser.username with
    | .error e => ([(.findUserByEmail awsUser.username, some e)], some e)
    | .ok awsUserFull =>
      prependEv (.findUserByEmail awsUser.username, none)
        (match s.updateUser awsUserFull with
         | .error e => ([(.updateUser awsUserFull, some e)], some e)
         | .ok _ => prependEv (.updateUser awsUserFull, none) (updateAwsUsers s rest))

/-- Phase 3 of `SyncGroupsUsers` (sync.go lines 431-447): create each
new user; an `ErrHttpNotOK` with status 409 is swallowed (logged and
skipped), any other error aborts. -/
def createAwsUsers (s : AwsStore) : List AwsUser → PhaseOut
  | [] => ([], none)
  | awsUser :: rest =>
    match s.createUser awsUser with
    | .ok _ => prependEv (.createUser awsUser, none) (createAwsUsers s rest)
    | .error e =>
      if e = .http 409 then
        prependEv (.createUser awsUser, some e) (createAwsUsers s rest)
      else ([(.createUser awsUser, some e)], some e)

/-- The member loop of phase 4 (sync.go lines 459-481): resolve each
source member of the new group by email and add it to the group; any
failure, including a failed resolution, aborts. -/
def addGroupMembers (s : AwsStore) (awsGroup : AwsGroup) : List GoogleUser → PhaseOut
  | [] => ([], none)
  | googleUser :: rest =>
    match s.findUserByEmail googleUser.primaryEmail with
    | .error e => ([(.findUserByEmail googleUser.primaryEmail, some e)], some e)
    | .ok awsUserFull =>
      prependEv (.findUserByEmail googleUser.primaryEmail, none)
        (match s.addUserToGroup awsUserFull awsGroup with
         | .error e => ([(.addUserToGroup awsUserFull awsGroup, some e)], some e)
         | .ok _ =>
           prependEv (.addUserToGroup awsUserFull awsGroup, none)
             (addGroupMembers s awsGroup rest))

/-- Phase 4 of `SyncGroupsUsers` (sync.go lines 448-482): create each
new group, then add all its source members. -/
def createAwsGroups (s : AwsStore) (googleGroupsUsers : List (String × List GoogleUser)) :
    List AwsGroup → PhaseOut
  | [] => ([], none)
  | awsGroup :: rest =>
    match s.createGroup awsGroup with
    | .error e => ([(.createGroup awsGroup, some e)], some e)
    | .ok _ =>
      prependEv (.createGroup awsGroup, none)
        (seqPhase
          (addGroupMembers s awsGroup
            ((mapLookup googleGroupsUsers awsGroup.displayName).getD []))
          (createAwsGroups s googleGroupsUsers rest))

/-- The add-missing-members loop of phase 5 (sync.go lines 490-521):
for each source member of an equal group, resolve by email, probe
membership, and add when absent. -/
def syncEqualGroupMembers (s : AwsStore) (awsGroup : AwsGroup) : List GoogleUser → PhaseOut
  | [] => ([], none)
  | googleUser :: rest =>
    match s.findUserByEmail googleUser.primaryEmail with
    | .error e => ([(.findUserByEmail googleUser.primaryEmail, some e)], some e)
    | .ok awsUserFull =>
      prependEv (.findUserByEmail googleUser.primaryEmail, none)
        (match s.isUserInGroup awsUserFull awsGroup with
         | .error e => ([(.isUserInGroup awsUserFull awsGroup, some e)], some e)
         | .ok b =>
           prependEv (.isUserInGroup awsUserFull awsGroup, none)
             (if !b then
                match s.addUserToGroup awsUserFull awsGroup with
                | .error e => ([(.addUserToGroup awsUserFull awsGroup, some e)], some e)
                | .ok _ =>
                  prependEv (.addUserToGroup awsUserFull awsGroup, none)
                    (syncEqualGroupMembers s awsGroup rest)
              else syncEqualGroupMembers s awsGroup rest))

/-- The remove-stale-members loop of phase 5 (sync.go lines 522-536):
remove each member the membership diff marked for deletion. -/
def removeEqualGroupMembers (s : AwsStore) (awsGroup : AwsGroup) : List AwsUser → PhaseOut
  | [] => ([], none)
  | awsUser :: rest =>
    match s.removeUserFromGroup awsUser awsGroup with
    | .error e => ([(.removeUserFromGroup awsUser awsGroup, some e)], some e)
    | .ok _ =>
      prependEv (.removeUserFromGroup awsUser awsGroup, none)
        (removeEqualGroupMembers s awsGroup rest)

/-- Phase 5 of `SyncGroupsUsers` (sync.go lines 485-537): for each
equal group, add missing members then remove stale ones. -/
def validateEqualGroups (s : AwsStore) (googleGroupsUsers : List (String × List GoogleUser))
    (deleteUsersFromGroup : List (String × List AwsUser)) : List AwsGroup → PhaseOut
  | [] => ([], none)
  | awsGroup :: rest =>
    seqPhase
      (syncEqualGroupMembers s awsGroup
        ((mapLookup googleGroupsUsers awsGroup.displayName).getD []))
      (seqPhase
        (removeEqualGroupMembers s awsGroup
          ((mapLookup deleteUsersFromGroup awsGroup.displayName).getD []))
        (validateEqualGroups s googleGroupsUsers deleteUsersFromGroup rest))

/-- Phase 6 of `SyncGroupsUsers` (sync.go lines 538-555): re-resolve
each stale group by display name, then delete the found record. -/
def deleteAwsGroups (s : AwsStore) : List AwsGroup → PhaseOut
  | [] => ([], none)
  | awsGroup :: rest =>
    match s.findGroupByDisplayName awsGroup.displayName with
    | .error e => ([(.findGroupByDisplayName awsGroup.displayName, some e)], some e)
    | .ok awsGroupFull =>
      prependEv (.findGroupByDisplayName awsGroup.displayName, none)
        (match s.deleteGroup awsGroupFull with
         | .error e => ([(.deleteGroup awsGroupFull, some e)], some e)
         | .ok _ => prependEv (.deleteGroup awsGroupFull, none) (deleteAwsGroups s rest))

/-- The apply stage of `SyncGroupsUsers` (sync.go lines 395-557): the
six phases run in their fixed source order; `deleteUsersFromGroup` is
the delete half of `getGroupUsersOperations` (computed at line 484,
between phases 4 and 5, with no store interaction). -/
def syncGroupsUsersApply (s : AwsStore)
    (delAWSUsers updateAWSUsers addAWSUsers : List AwsUser)
    (addAWSGroups equalAWSGroups delAWSGroups : List AwsGroup)
    (googleGroupsUsers : List (String × List GoogleUser))
    (awsGroupsUsers : List (String × List AwsUser)) : PhaseOut :=
  let deleteUsersFromGroup := (getGroupUsersOperations googleGroupsUsers awsGroupsUsers).1
  runPhases
    [deleteAwsUsers s delAWSUsers,
     updateAwsUsers s updateAWSUsers,
     createAwsUsers s addAWSUsers,
     createAwsGroups s googleGroupsUsers addAWSGroups,
     validateEqualGroups s googleGroupsUsers deleteUsersFromGroup equalAWSGroups,
     deleteAwsGroups s delAWSGroups]

/-- `SyncGroupsUsers` from the snapshots onward (sync.go lines
384-557): the diff engine computes the operation sets (discarding the
user equals set, as line 385 does) and the apply stage executes them.
The snapshot-collection stage that precedes this point performs no
target-store mutation. -/
def syncGroupsUsersRun (s : AwsStore)
    (awsUsers : List AwsUser) (awsGroups : List AwsGroup)
    (googleUsers : List GoogleUser) (googleGroups : List GoogleGroup)
    (googleGroupsUsers : List (String × List GoogleUser))
    (awsGroupsUsers : List (String × List AwsUser)) : PhaseOut :=
  match getUserOperations awsUsers googleUsers with
  | (addAWSUsers, delAWSUsers, updateAWSUsers, _) =>
    match getGroupOperations awsGroups googleGroups with
    | (addAWSGroups, delAWSGroups, equalAWSGroups) =>
      syncGroupsUsersApply s delAWSUsers updateAWSUsers addAWSUsers
        addAWSGroups equalAWSGroups delAWSGroups googleGroupsUsers awsGroupsUsers

/-! ## Phase properties: allowed calls and abort-on-error -/

/-- Calls phase 1 (delete stale users) may make. -/
def isPhase1Call : StoreCall → Bool
  | .findUserByEmail _ => true
  | .deleteUser _ => true
  | _ => false

/-- Calls phase 2 (update changed users) may make. -/
def isPhase2Call : StoreCall → Bool
  | .findUserByEmail _ => true
  | .updateUser _ => true
  | _ => false

/-- Calls phase 3 (add new users) may make. -/
def isPhase3Call : StoreCall → Bool
  | .createUser _ => true
  | _ => false

/-- Calls phase 4 (add new groups with initial membership) may make. -/
def isPhase4Call : StoreCall → Bool
  | .createGroup _ => true
  | .findUserByEmail _ => true
  | .addUserToGroup _ _ => true
  | _ => false

/-- Calls phase 5 (reconcile membership of equal groups) may make. -/
def isPhase5Call : StoreCall → Bool
  | .findUserByEmail _ => true
  | .isUserInGroup _ _ => true
  | .addUserToGroup _ _ => true
  | .removeUserFromGroup _ _ => true
  | _ => false

/-- Calls phase 6 (delete stale groups) may make. -/
def isPhase6Call : StoreCall → Bool
  | .findGroupByDisplayName _ => true
  | .deleteGroup _ => true
  | _ => false

/-- The only error the pipeline swallows: a user-creation call
answered with HTTP status 409. -/
def swallowedConflict : StoreCall → StoreErr → Bool
  | .createUser _, .http n => n == 409
  | _, _ => false

/-- Every call of the trace satisfies the allowed-call predicate. -/
def CallsOk (allowed : StoreCall → Bool) (t : List Event) : Prop :=
  ∀ ev ∈ t, allowed ev.1 = true

/-- If the stage aborted, its trace ends with the failing,
non-swallowed call carrying exactly the returned error, and nothing
follows it. -/
def ErrLast (p : PhaseOut) : Prop :=
  ∀ e, p.2 = some e →
    ∃ pre c, p.1 = pre ++ [(c, some e)] ∧ swallowedConflict c e = false

theorem callsOk_nil {allowed : StoreCall → Bool} : CallsOk allowed [] := by
  intro ev h
  cases h

theorem callsOk_singleton {allowed : StoreCall → Bool} {c : StoreCall} {r : Option StoreErr}
    (h : allowed c = true) : CallsOk allowed [(c, r)] := by
  intro ev hev
  rcases List.mem_singleton.1 hev with rfl
  exact h

theorem callsOk_prependEv {allowed : StoreCall → Bool} {ev : Event} {p : PhaseOut}
    (hev : allowed ev.1 = true) (hp : CallsOk allowed p.1) :
    CallsOk allowed (prependEv ev p).1 := by
  intro x hx
  rcases List.mem_cons.1 hx with h | h
  · rw [h]
    exact hev
  · exact hp x h

theorem callsOk_seqPhase {allowed : StoreCall → Bool} {a b : PhaseOut}
    (ha : CallsOk allowed a.1) (hb : CallsOk allowed b.1) :
    CallsOk allowed (seqPhase a b).1 := by
  obtain ⟨t, r⟩ := a
  cases r with
  | none =>
    intro x hx
    rcases List.mem_append.1 hx with h | h
    · exact ha x h
    · exact hb x h
  | some e =>
    intro x hx
    exact ha x hx

theorem errLast_nil : ErrLast (([], none) : PhaseOut) := by
  intro e h
  cases h

theorem errLast_stop {c : StoreCall} {e : StoreErr} (h : swallowedConflict c e = false) :
    ErrLast (([(c, some e)], some e) : PhaseOut) := by
  intro e' he'
  injection he' with he'
  subst he'
  exact ⟨[], c, rfl, h⟩

theorem errLast_prependEv {ev : Event} {p : PhaseOut} (h : ErrLast p) :
    ErrLast (prependEv ev p) := by
  intro e he
  obtain ⟨pre, c, h1, h2⟩ := h e he
  exact ⟨ev :: pre, c, by simp [prependEv, h1], h2⟩

theorem errLast_seqPhase {a b : PhaseOut} (ha : ErrLast a) (hb : ErrLast b) :
    ErrLast (seqPhase a b) := by
  obtain ⟨t, r⟩ := a
  cases r with
  | none =>
    intro e he
    obtain ⟨pre, c, h1, h2⟩ := hb e he
    refine ⟨t ++ pre, c, ?_, h2⟩
    show t ++ b.1 = (t ++ pre) ++ [(c, some e)]
    rw [h1, List.append_assoc]
  | some e0 =>
    intro e he
    exact ha e he

theorem errLast_runPhases : ∀ ps : List PhaseOut, (∀ p ∈ ps, ErrLast p) →
    ErrLast (runPhases ps) := by
  intro ps
  induction ps with
  | nil => intro _; exact errLast_nil
  | cons p t ih =>
    intro h
    exact errLast_seqPhase (h p (List.mem_cons_self p t)) (ih fun q hq => h q (List.mem_cons_of_mem _ hq))

theorem join_map_nil {β : Type} (l : List β) :
    (l.map (fun _ => ([] : List Event))).flatten = [] := by
  induction l with
  | nil => rfl
  | cons x t ih => simp [ih]

theorem forall₂_nils (l : List PhaseOut) :
    List.Forall₂ (fun (t : List Event) (p : PhaseOut) => t = p.1 ∨ t = [])
      (l.map fun _ => []) l := by
  induction l with
  | nil => exact .nil
  | cons p t ih => exact .cons (Or.inr rfl) ih

theorem runPhases_trace_decomp : ∀ ps : List PhaseOut,
    ∃ ts : List (List Event),
      (runPhases ps).1 = ts.flatten ∧
      List.Forall₂ (fun (t : List Event) (p : PhaseOut) => t = p.1 ∨ t = []) ts ps := by
  intro ps
  induction ps with
  | nil => exact ⟨[], rfl, .nil⟩
  | cons p t ih =>
    obtain ⟨ts, h1, h2⟩ := ih
    obtain ⟨tp, rp⟩ := p
    cases rp with
    | some e =>
      refine ⟨tp :: t.map (fun _ => []), ?_, .cons (Or.inl rfl) (forall₂_nils t)⟩
      show (seqPhase (tp, some e) (runPhases t)).1 = _
      simp [seqPhase, join_map_nil]
    | none =>
      refine ⟨tp :: ts, ?_, .cons (Or.inl rfl) h2⟩
      show (seqPhase (tp, none) (runPhases t)).1 = (tp :: ts).flatten
      simp [seqPhase, h1]

theorem swallowedConflict_ne409 {u : AwsUser} {e : StoreErr} (h : ¬ e = .http 409) :
    swallowedConflict (.createUser u) e = false := by
  cases e with
  | http n =>
    simp only [swallowedConflict]
    rw [beq_eq_false_iff_ne]
    intro hn
    subst hn
    exact h rfl
  | notFound => rfl
  | other m => rfl

theorem deleteAwsUsers_callsOk (s : AwsStore) :
    ∀ l : List AwsUser, CallsOk isPhase1Call (deleteAwsUsers s l).1 := by
  intro l
  induction l with
  | nil => exact callsOk_nil
  | cons u rest ih =>
    simp only [deleteAwsUsers]
    split
    · exact callsOk_singleton rfl
    · refine callsOk_prependEv rfl ?_
      split
      · exact callsOk_singleton rfl
      · exact callsOk_prependEv rfl ih

theorem deleteAwsUsers_errLast (s : AwsStore) :
    ∀ l : List AwsUser, ErrLast (deleteAwsUsers s l) := by
  intro l
  induction l with
  | nil => exact errLast_nil
  | cons u rest ih =>
    simp only [deleteAwsUsers]
    split
    · exact errLast_stop rfl
    · refine errLast_prependEv ?_
      split
      · exact errLast_stop rfl
      · exact errLast_prependEv ih

theorem updateAwsUsers_callsOk (s : AwsStore) :
    ∀ l : List AwsUser, CallsOk isPhase2Call (updateAwsUsers s l).1 := by
  intro l
  induction l with
  | nil => exact callsOk_nil
  | cons u rest ih =>
    simp only [updateAwsUsers]
    split
    · exact callsOk_singleton rfl
    · refine callsOk_prependEv rfl ?_
      split
      · exact callsOk_singleton rfl
      · exact callsOk_prependEv rfl ih

theorem updateAwsUsers_errLast (s : AwsStore) :
    ∀ l : List AwsUser, ErrLast (updateAwsUsers s l) := by
  intro l
  induction l with
  | nil => exact errLast_nil
  | cons u rest ih =>
    simp only [updateAwsUsers]
    split
    · exact errLast_stop rfl
    · refine errLast_prependEv ?_
      split
      · exact errLast_stop rfl
      · exact errLast_prependEv ih

theorem createAwsUsers_callsOk (s : AwsStore) :
    ∀ l : List AwsUser, CallsOk isPhase3Call (createAwsUsers s l).1 := by
  intro l
  induction l with
  | nil => exact callsOk_nil
  | cons u rest ih =>
    simp only [createAwsUsers]
    split
    · exact callsOk_prependEv rfl ih
    · split
      · exact callsOk_prependEv rfl ih
      · exact callsOk_singleton rfl

theorem createAwsUsers_errLast (s : AwsStore) :
    ∀ l : List AwsUser, ErrLast (createAwsUsers s l) := by
  intro l
  induction l with
  | nil => exact errLast_nil
  | cons u rest ih =>
    simp only [createAwsUsers]
    split
    · exact errLast_prependEv ih
    · split
      next he => exact errLast_prependEv ih
      next he => exact errLast_stop (swallowedConflict_ne409 he)

theorem addGroupMembers_callsOk (s : AwsStore) (awsGroup : AwsGroup) :
    ∀ l : List GoogleUser, CallsOk isPhase4Call (addGroupMembers s awsGroup l).1 := by
  intro l
  induction l with
  | nil => exact callsOk_nil
  | cons u rest ih =>
    simp only [addGroupMembers]
    split
    · exact callsOk_singleton rfl
    · refine callsOk_prependEv rfl ?_
      split
      · exact callsOk_singleton rfl
      · exact callsOk_prependEv rfl ih

theorem addGroupMembers_errLast (s : AwsStore) (awsGroup : AwsGroup) :
    ∀ l : List GoogleUser, ErrLast (addGroupMembers s awsGroup l) := by
  intro l
  induction l with
  | nil => exact errLast_nil
  | cons u rest ih =>
    simp only [addGroupMembers]
    split
    · exact errLast_stop rfl
    · refine errLast_prependEv ?_
      split
      · exact errLast_stop rfl
      · exact errLast_prependEv ih

theorem createAwsGroups_callsOk (s : AwsStore)
    (googleGroupsUsers : List (String × List GoogleUser)) :
    ∀ l : List AwsGroup, CallsOk isPhase4Call (createAwsGroups s googleGroupsUsers l).1 := by
  intro l
  induction l with
  | nil => exact callsOk_nil
  | cons g rest ih =>
    simp only [createAwsGroups]
    split
    · exact callsOk_singleton rfl
    · exact callsOk_prependEv rfl
        (callsOk_seqPhase (addGroupMembers_callsOk s g _) ih)

theorem createAwsGroups_errLast (s : AwsStore)
    (googleGroupsUsers : List (String × List GoogleUser)) :
    ∀ l : List AwsGroup, ErrLast (createAwsGroups s googleGroupsUsers l) := by
  intro l
  induction l with
  | nil => exact errLast_nil
  | cons g rest ih =>
    simp only [createAwsGroups]
    split
    · exact errLast_stop rfl
    · exact errLast_prependEv (errLast_seqPhase (addGroupMembers_errLast s g _) ih)

theorem syncEqualGroupMembers_callsOk (s : AwsStore) (awsGroup : AwsGroup) :
    ∀ l : List GoogleUser, CallsOk isPhase5Call (syncEqualGroupMembers s awsGroup l).1 := by
  intro l
  induction l with
  | nil => exact callsOk_nil
  | cons u rest ih =>
    simp only [syncEqualGroupMembers]
    split
    · exact callsOk_singleton rfl
    · refine callsOk_prependEv rfl ?_
      split
      · exact callsOk_singleton rfl
      · refine callsOk_prependEv rfl ?_
        split
        · split
          · exact callsOk_singleton rfl
          · exact callsOk_prependEv rfl ih
        · exact ih

theorem syncEqualGroupMembers_errLast (s : AwsStore) (awsGroup : AwsGroup) :
    ∀ l : List GoogleUser, ErrLast (syncEqualGroupMembers s awsGroup l) := by
  intro l
  induction l with
  | nil => exact errLast_nil
  | cons u rest ih =>
    simp only [syncEqualGroupMembers]
    split
    · exact errLast_stop rfl
    · refine errLast_prependEv ?_
      split
      · exact errLast_stop rfl
      · refine errLast_prependEv ?_
        split
        · split
          · exact errLast_stop rfl
          · exact errLast_prependEv ih
        · exact ih

theorem removeEqualGroupMembers_callsOk (s : AwsStore) (awsGroup : AwsGroup) :
    ∀ l : List AwsUser, CallsOk isPhase5Call (removeEqualGroupMembers s awsGroup l).1 := by
  intro l
  induction l with
  | nil => exact callsOk_nil
  | cons u rest ih =>
    simp only [removeEqualGroupMembers]
    split
    · exact callsOk_singleton rfl
    · exact callsOk_prependEv rfl ih

theorem removeEqualGroupMembers_errLast (s : AwsStore) (awsGroup : AwsGroup) :
    ∀ l : List AwsUser, ErrLast (removeEqualGroupMembers s awsGroup l) := by
  intro l
  induction l with
  | nil => exact errLast_nil
  | cons u rest ih =>
    simp only [removeEqualGroupMembers]
    split
    · exact errLast_stop rfl
    · exact errLast_prependEv ih

theorem validateEqualGroups_callsOk (s : AwsStore)
    (googleGroupsUsers : List (String × List GoogleUser))
    (deleteUsersFromGroup : List (String × List AwsUser)) :
    ∀ l : List AwsGroup,
      CallsOk isPhase5Call (validateEqualGroups s googleGroupsUsers deleteUsersFromGroup l).1 := by
  intro l
  induction l with
  | nil => exact callsOk_nil
  | cons g rest ih =>
    simp only [validateEqualGroups]
    exact callsOk_seqPhase (syncEqualGroupMembers_callsOk s g _)
      (callsOk_seqPhase (removeEqualGroupMembers_callsOk s g _) ih)

theorem validateEqualGroups_errLast (s : AwsStore)
    (googleGroupsUsers : List (String × List GoogleUser))
    (deleteUsersFromGroup : List (String × List AwsUser)) :
    ∀ l : List AwsGroup,
      ErrLast (validateEqualGroups s googleGroupsUsers deleteUsersFromGroup l) := by
  intro l
  induction l with
  | nil => exact errLast_nil
  | cons g rest ih =>
    simp only [validateEqualGroups]
    exact errLast_seqPhase (syncEqualGroupMembers_errLast s g _)
      (errLast_seqPhase (removeEqualGroupMembers_errLast s g _) ih)

theorem deleteAwsGroups_callsOk (s : AwsStore) :
    ∀ l : List AwsGroup, CallsOk isPhase6Call (deleteAwsGroups s l).1 := by
  intro l
  induction l with
  | nil => exact callsOk_nil
  | cons g rest ih =>
    simp only [deleteAwsGroups]
    split
    · exact callsOk_singleton rfl
    · refine callsOk_prependEv rfl ?_
      split
      · exact callsOk_singleton rfl
      · exact callsOk_prependEv rfl ih

theorem deleteAwsGroups_errLast (s : AwsStore) :
    ∀ l : List AwsGroup, ErrLast (deleteAwsGroups s l) := by
  intro l
  induction l with
  | nil => exact errLast_nil
  | cons g rest ih =>
    simp only [deleteAwsGroups]
    split
    · exact errLast_stop rfl
    · refine errLast_prependEv ?_
      split
      · exact errLast_stop rfl
      · exact errLast_prependEv ih

theorem syncGroupsUsersApply_errLast (s : AwsStore)
    (delAWSUsers updateAWSUsers addAWSUsers : List AwsUser)
    (addAWSGroups equalAWSGroups delAWSGroups : List AwsGroup)
    (googleGroupsUsers : List (String × List GoogleUser))
    (awsGroupsUsers : List (String × List AwsUser)) :
    ErrLast (syncGroupsUsersApply s delAWSUsers updateAWSUsers addAWSUsers addAWSGroups
      equalAWSGroups delAWSGroups googleGroupsUsers awsGroupsUsers) := by
  simp only [syncGroupsUsersApply]
  apply errLast_runPhases
  intro p hp
  simp only [List.mem_cons, List.not_mem_nil, or_false] at hp
  rcases hp with rfl | rfl | rfl | rfl | rfl | rfl
  · exact deleteAwsUsers_errLast s _
  · exact updateAwsUsers_errLast s _
  · exact createAwsUsers_errLast s _
  · exact createAwsGroups_errLast s _ _
  · exact validateEqualGroups_errLast s _ _ _
  · exact deleteAwsGroups_errLast s _

theorem syncGroupsUsersApply_decomp (s : AwsStore)
    (delAWSUsers updateAWSUsers addAWSUsers : List AwsUser)
    (addAWSGroups equalAWSGroups delAWSGroups : List AwsGroup)
    (googleGroupsUsers : List (String × List GoogleUser))
    (awsGroupsUsers : List (String × List AwsUser)) :
    ∃ t1 t2 t3 t4 t5 t6 : List Event,
      (syncGroupsUsersApply s delAWSUsers updateAWSUsers addAWSUsers addAWSGroups
        equalAWSGroups delAWSGroups googleGroupsUsers awsGroupsUsers).1
        = t1 ++ (t2 ++ (t3 ++ (t4 ++ (t5 ++ t6)))) ∧
      CallsOk isPhase1Call t1 ∧ CallsOk isPhase2Call t2 ∧ CallsOk isPhase3Call t3 ∧
      CallsOk isPhase4Call t4 ∧ CallsOk isPhase5Call t5 ∧ CallsOk isPhase6Call t6 := by
  simp only [syncGroupsUsersApply]
  obtain ⟨ts, hjoin, hfa⟩ := runPhases_trace_decomp
    [deleteAwsUsers s delAWSUsers,
     updateAwsUsers s updateAWSUsers,
     createAwsUsers s addAWSUsers,
     createAwsGroups s googleGroupsUsers addAWSGroups,
     validateEqualGroups s googleGroupsUsers
       (getGroupUsersOperations googleGroupsUsers awsGroupsUsers).1 equalAWSGroups,
     deleteAwsGroups s delAWSGroups]
  cases hfa with
  | cons h1 hfa =>
  cases hfa with
  | cons h2 hfa =>
  cases hfa with
  | cons h3 hfa =>
  cases hfa with
  | cons h4 hfa =>
  cases hfa with
  | cons h5 hfa =>
  cases hfa with
  | cons h6 hfa =>
  cases hfa
  rename_i t1 t2 t3 t4 t5 t6
  have c1 : CallsOk isPhase1Call t1 := by
    rcases h1 with h | h
    · rw [h]
      exact deleteAwsUsers_callsOk s _
    · rw [h]
      exact callsOk_nil
  have c2 : CallsOk isPhase2Call t2 := by
    rcases h2 with h | h
    · rw [h]
      exact updateAwsUsers_callsOk s _
    · rw [h]
      exact callsOk_nil
  have c3 : CallsOk isPhase3Call t3 := by
    rcases h3 with h | h
    · rw [h]
      exact createAwsUsers_callsOk s _
    · rw [h]
      exact callsOk_nil
  have c4 : CallsOk isPhase4Call t4 := by
    rcases h4 with h | h
    · rw [h]
      exact createAwsGroups_callsOk s _ _
    · rw [h]
      exact callsOk_nil
  have c5 : CallsOk isPhase5Call t5 := by
    rcases h5 with h | h
    · rw [h]
      exact validateEqualGroups_callsOk s _ _ _
    · rw [h]
      exact callsOk_nil
  have c6 : CallsOk isPhase6Call t6 := by
    rcases h6 with h | h
    · rw [h]
      exact deleteAwsGroups_callsOk s _
    · rw [h]
      exact callsOk_nil
  refine ⟨t1, t2, t3, t4, t5, t6, ?_, c1, c2, c3, c4, c5, c6⟩
  simpa using hjoin

/-- C8: every run of `SyncGroupsUsers` (from the snapshots onward; the
snapshot-collection stage makes no target-store mutation) makes its
store calls in the fixed phase order — its trace splits into six
consecutive segments, one per phase, each containing only that phase's
calls: delete stale users, update changed users, add new users, add
new groups with membership, reconcile equal groups, delete stale
groups — and whenever a non-swallowed error occurs the run returns
exactly that error immediately: the trace ends at the failing call,
with no further store operation and no rollback of earlier ones. -/
theorem c8_pipeline_order_and_abort (s : AwsStore)
    (awsUsers : List AwsUser) (awsGroups : List AwsGroup)
    (googleUsers : List GoogleUser) (googleGroups : List GoogleGroup)
    (googleGroupsUsers : List (String × List GoogleUser))
    (awsGroupsUsers : List (String × List AwsUser)) :
    (∃ t1 t2 t3 t4 t5 t6 : List Event,
      (syncGroupsUsersRun s awsUsers awsGroups googleUsers googleGroups googleGroupsUsers
        awsGroupsUsers).1 = t1 ++ (t2 ++ (t3 ++ (t4 ++ (t5 ++ t6)))) ∧
      CallsOk isPhase1Call t1 ∧ CallsOk isPhase2Call t2 ∧ CallsOk isPhase3Call t3 ∧
      CallsOk isPhase4Call t4 ∧ CallsOk isPhase5Call t5 ∧ CallsOk isPhase6Call t6) ∧
    (∀ e : StoreErr,
      (syncGroupsUsersRun s awsUsers awsGroups googleUsers googleGroups googleGroupsUsers
        awsGroupsUsers).2 = some e →
      ∃ pre c,
        (syncGroupsUsersRun s awsUsers awsGroups googleUsers googleGroups googleGroupsUsers
          awsGroupsUsers).1 = pre ++ [(c, some e)] ∧
        swallowedConflict c e = false) := by
  rcases hu : getUserOperations awsUsers googleUsers with ⟨addU, delU, updU, eqU⟩
  rcases hg : getGroupOperations awsGroups googleGroups with ⟨addG, delG, eqG⟩
  have hrun : syncGroupsUsersRun s awsUsers awsGroups googleUsers googleGroups
      googleGroupsUsers awsGroupsUsers
      = syncGroupsUsersApply s delU updU addU addG eqG delG googleGroupsUsers
        awsGroupsUsers := by
    simp only [syncGroupsUsersRun, hu, hg]
  rw [hrun]
  exact ⟨syncGroupsUsersApply_decomp s delU updU addU addG eqG delG googleGroupsUsers
      awsGroupsUsers,
    syncGroupsUsersApply_errLast s delU updU addU addG eqG delG googleGroupsUsers
      awsGroupsUsers⟩

deriving instance DecidableEq for Except

/-! ## Claims C1, C2, C6: concrete stores and pipeline behavior -/

theorem append_singleton_inj {α : Type} {l1 l2 : List α} {a b : α}
    (h : l1 ++ [a] = l2 ++ [b]) : a = b := by
  have h2 := congrArg List.reverse h
  simp only [List.reverse_append, List.reverse_cons, List.reverse_nil, List.nil_append,
    List.singleton_append] at h2
  injection h2

/-- C6: a 409 conflict on user creation is swallowed by `SyncGroupsUsers`:
the conflicting user is skipped and the creation phase continues with the
remaining users; a creation phase all of whose calls succeed or conflict
returns no error, so the subsequent phases still execute; and the apply
stage never returns an error whose failing call is a 409 user-creation
conflict. -/
theorem c6_create_conflict_swallowed :
    (∀ (s : AwsStore) (u : AwsUser) (rest : List AwsUser),
      s.createUser u = .error (.http 409) →
      createAwsUsers s (u :: rest)
        = prependEv (.createUser u, some (.http 409)) (createAwsUsers s rest)) ∧
    (∀ (s : AwsStore) (l : List AwsUser),
      (∀ u ∈ l, s.createUser u = .error (.http 409) ∨ ∃ v, s.createUser u = .ok v) →
      (createAwsUsers s l).2 = none) ∧
    (∀ (s : AwsStore) (delAWSUsers updateAWSUsers addAWSUsers : List AwsUser)
       (addAWSGroups equalAWSGroups delAWSGroups : List AwsGroup)
       (googleGroupsUsers : List (String × List GoogleUser))
       (awsGroupsUsers : List (String × List AwsUser))
       (e : StoreErr) (pre : List Event) (u : AwsUser),
      (syncGroupsUsersApply s delAWSUsers updateAWSUsers addAWSUsers addAWSGroups
        equalAWSGroups delAWSGroups googleGroupsUsers awsGroupsUsers).2 = some e →
      (syncGroupsUsersApply s delAWSUsers updateAWSUsers addAWSUsers addAWSGroups
        equalAWSGroups delAWSGroups googleGroupsUsers awsGroupsUsers).1
        = pre ++ [(.createUser u, some (.http 409))] → False) := by
  refine ⟨?_, ?_, ?_⟩
  · intro s u rest h
    simp [createAwsUsers, h]
  · intro s l h
    induction l with
    | nil => rfl
    | cons u rest ih =>
      have hrest : (createAwsUsers s rest).2 = none :=
        ih fun v hv => h v (List.mem_cons_of_mem _ hv)
      rcases h u (List.mem_cons_self u rest) with hc | ⟨v, hc⟩ <;>
        simp [createAwsUsers, hc, hrest, prependEv]
  · intro s delAWSUsers updateAWSUsers addAWSUsers addAWSGroups equalAWSGroups delAWSGroups
      googleGroupsUsers awsGroupsUsers e pre u he htr
    obtain ⟨pre', c, h1, h2⟩ := syncGroupsUsersApply_errLast s delAWSUsers updateAWSUsers
      addAWSUsers addAWSGroups equalAWSGroups delAWSGroups googleGroupsUsers
      awsGroupsUsers e he
    rw [h1] at htr
    have hlast := append_singleton_inj htr
    obtain ⟨hc, hr⟩ := Prod.mk.injEq .. ▸ hlast
    subst hc
    injection hr with hr
    subst hr
    simp [swallowedConflict] at h2

/-- A concrete user whose creation conflicts. -/
def conflictUser : AwsUser := NewUser "Con" "Flict" "c@x.com" true

/-- A concrete store whose user-creation call answers 409 for
`conflictUser` and succeeds for everyone else. -/
def storeConflict : AwsStore :=
  { findUserByEmail := fun _ => .error .notFound
    deleteUser := fun _ => .ok ()
    updateUser := fun u => .ok u
    createUser := fun u => if u.username == "c@x.com" then .error (.http 409) else .ok u
    createGroup := fun g => .ok g
    isUserInGroup := fun _ _ => .ok true
    addUserToGroup := fun _ _ => .ok ()
    removeUserFromGroup := fun _ _ => .ok ()
    findGroupByDisplayName := fun _ => .error .notFound
    deleteGroup := fun _ => .ok () }

/-- Witness for C6 at a concrete input: the conflicting user is
skipped, the remaining user is still created, and the phase reports no
error. -/
theorem c6_create_conflict_swallowed_witness :
    createAwsUsers storeConflict [conflictUser, awsUserBob]
      = prependEv (.createUser conflictUser, some (.http 409))
          (createAwsUsers storeConflict [awsUserBob]) ∧
    (createAwsUsers storeConflict [conflictUser, awsUserBob]).2 = none :=
  ⟨c6_create_conflict_swallowed.1 storeConflict conflictUser [awsUserBob] (by decide),
   c6_create_conflict_swallowed.2.1 storeConflict [conflictUser, awsUserBob] (by
    intro v hv
    rcases List.mem_cons.1 hv with rfl | hv
    · exact Or.inl (by decide)
    · rcases List.mem_cons.1 hv with rfl | hv
      · exact Or.inr ⟨awsUserBob, by decide⟩
      · cases hv)⟩

/-- A concrete store in which every user lookup answers not-found. -/
def storeNoUsers : AwsStore :=
  { findUserByEmail := fun _ => .error .notFound
    deleteUser := fun _ => .ok ()
    updateUser := fun u => .ok u
    createUser := fun u => .ok u
    createGroup := fun g => .ok g
    isUserInGroup := fun _ _ => .ok true
    addUserToGroup := fun _ _ => .ok ()
    removeUserFromGroup := fun _ _ => .ok ()
    findGroupByDisplayName := fun _ => .error .notFound
    deleteGroup := fun _ => .ok () }

/-- C2 counterexample: the target snapshot has one stale user, the
source has none, and the re-resolution before deletion answers
not-found.  The claim says the user is skipped and the run continues
without error; the code aborts the run, returning the not-found error
after the single lookup call. -/
theorem c2_delete_notfound_counterexample :
    (syncGroupsUsersRun storeNoUsers [awsUserBob] [] [] [] [] []).2
        = some StoreErr.notFound ∧
    (syncGroupsUsersRun storeNoUsers [awsUserBob] [] [] [] [] []).2 ≠ none ∧
    (syncGroupsUsersRun storeNoUsers [awsUserBob] [] [] [] [] []).1
        = [(.findUserByEmail "b@x.com", some StoreErr.notFound)] := by
  refine ⟨rfl, ?_, rfl⟩
  decide

/-- C2 (amended): phase 1 does re-resolve each user by email before
deleting — every record passed to `DeleteUser` was returned by a
`FindUserByEmail` call for some user of the delete set — but a
not-found (or any other) result from that lookup is not treated as
already-converged: it aborts the phase, and hence the run, with that
error as soon as it occurs. -/
theorem c2_delete_lookup_amended :
    (∀ (s : AwsStore) (u : AwsUser) (rest : List AwsUser) (e : StoreErr),
      s.findUserByEmail u.username = .error e →
      deleteAwsUsers s (u :: rest)
        = ([(.findUserByEmail u.username, some e)], some e)) ∧
    (∀ (s : AwsStore) (l : List AwsUser) (v : AwsUser) (r : Option StoreErr),
      (StoreCall.deleteUser v, r) ∈ (deleteAwsUsers s l).1 →
      ∃ u ∈ l, s.findUserByEmail u.username = .ok v) := by
  constructor
  · intro s u rest e h
    simp [deleteAwsUsers, h]
  · intro s l
    induction l with
    | nil =>
      intro v r hv
      cases hv
    | cons u rest ih =>
      intro v r hv
      simp only [deleteAwsUsers] at hv
      revert hv
      split
      · intro hv
        rcases List.mem_singleton.1 hv with hv
        cases hv
      · next uu hfind =>
        intro hv
        rcases List.mem_cons.1 hv with hv | hv
        · cases hv
        · revert hv
          split
          · intro hv
            rcases List.mem_singleton.1 hv with hv
            obtain ⟨hc, -⟩ := Prod.mk.injEq .. ▸ hv
            injection hc with hc
            subst hc
            exact ⟨u, List.mem_cons_self u rest, hfind⟩
          · intro hv
            rcases List.mem_cons.1 hv with hv | hv
            · obtain ⟨hc, -⟩ := Prod.mk.injEq .. ▸ hv
              injection hc with hc
              subst hc
              exact ⟨u, List.mem_cons_self u rest, hfind⟩
            · obtain ⟨w, hw, hfw⟩ := ih v r hv
              exact ⟨w, List.mem_cons_of_mem _ hw, hfw⟩

/-- Witness for C2 (amended) at a concrete input. -/
theorem c2_delete_lookup_amended_witness :
    deleteAwsUsers storeNoUsers [awsUserBob]
      = ([(.findUserByEmail "b@x.com", some StoreErr.notFound)], some StoreErr.notFound) :=
  c2_delete_lookup_amended.1 storeNoUsers awsUserBob [] StoreErr.notFound rfl

/-- A concrete store holding exactly `awsUserCarlOld`; updates echo
their argument back. -/
def storeCarl : AwsStore :=
  { findUserByEmail := fun e => if e == "c@x.com" then .ok awsUserCarlOld
      else .error .notFound
    deleteUser := fun _ => .ok ()
    updateUser := fun u => .ok u
    createUser := fun u => .ok u
    createGroup := fun g => .ok g
    isUserInGroup := fun _ _ => .ok true
    addUserToGroup := fun _ _ => .ok ()
    removeUserFromGroup := fun _ _ => .ok ()
    findGroupByDisplayName := fun _ => .error .notFound
    deleteGroup := fun _ => .ok () }

/-- C1, evaluated at the failing input: the source user `c@x.com` has
given name `New`, the target record has `Old`, so the diff engine
classifies `update` and builds the record `NewUser "New" "Lee"
"c@x.com" true` carrying the source attributes — but the apply
pipeline re-resolves the user and passes the re-fetched target record
(still carrying `Old`) to `UpdateUser`; the record carrying the
source's attributes is never sent to the store. -/
theorem c1_update_sends_refetched_record :
    userUpdates awsSample [googleSampleCarl] = [NewUser "New" "Lee" "c@x.com" true] ∧
    syncGroupsUsersRun storeCarl awsSample [] [googleSampleCarl] [] [] []
      = ([(.findUserByEmail "c@x.com", none), (.updateUser awsUserCarlOld, none)], none) ∧
    awsUserCarlOld.name.givenName = "Old" ∧
    ((StoreCall.updateUser (NewUser "New" "Lee" "c@x.com" true), (none : Option StoreErr)) ∉
      (syncGroupsUsersRun storeCarl awsSample [] [googleSampleCarl] [] [] []).1) := by
  refine ⟨rfl, rfl, rfl, ?_⟩
  decide

/-- Witness for C8 at a concrete input: the erroring run's trace ends
at the failing, non-swallowed call. -/
theorem c8_pipeline_order_and_abort_witness :
    ∃ pre c,
      (syncGroupsUsersRun storeNoUsers [awsUserBob] [] [] [] [] []).1
        = pre ++ [(c, some StoreErr.notFound)] ∧
      swallowedConflict c StoreErr.notFound = false :=
  (c8_pipeline_order_and_abort storeNoUsers [awsUserBob] [] [] [] [] []).2
    StoreErr.notFound rfl

/-! ## Claim C10: the alternate-mode `SyncUsers` loop -/

/-- The deleted-users pass of `SyncUsers` (sync.go lines 72-113):
each deleted Google user is looked up; `ErrUserNotFound` means already
converged and is skipped, any other lookup error or a deletion error
aborts. -/
def syncUsersDeleted (s : AwsStore) : List GoogleUser → PhaseOut
  | [] => ([], none)
  | u :: rest =>
    match s.findUserByEmail u.primaryEmail with
    | .error .notFound =>
      prependEv (.findUserByEmail u.primaryEmail, some .notFound) (syncUsersDeleted s rest)
    | .error e => ([(.findUserByEmail u.primaryEmail, some e)], some e)
    | .ok uu =>
      prependEv (.findUserByEmail u.primaryEmail, none)
        (match s.deleteUser uu with
         | .error e => ([(.deleteUser uu, some e)], some e)
         | .ok _ => prependEv (.deleteUser uu, none) (syncUsersDeleted s rest))

/-- The main loop of `SyncUsers` (sync.go lines 121-191), threading
the `s.users` map: an ignored email is skipped; otherwise the user is
looked up in the store, discarding the lookup error itself and testing
only whether a record came back (line 130).  A found record is stored
in the map and an update — built by `aws.UpdateUser` from the found
id and the source attributes — is issued only when the found active
flag equals the source suspended flag; otherwise the record is left
unchanged even if the names differ.  An unresolved user is created
from source attributes and the created record stored in the map. -/
def syncUsersLoop (s : AwsStore) (ignoreUsers : List String) :
    List GoogleUser → List (String × AwsUser) →
    List (String × AwsUser) × PhaseOut
  | [], users => (users, ([], none))
  | u :: rest, users =>
    if ignoreUser ignoreUsers u.primaryEmail then
      syncUsersLoop s ignoreUsers rest users
    else
      match s.findUserByEmail u.primaryEmail with
      | .ok uu =>
        if uu.active == u.suspended then
          match s.updateUser (UpdateUser uu.id u.name.givenName u.name.familyName
              u.primaryEmail (!u.suspended)) with
          | .error e =>
            ((uu.username, uu) :: users,
             ([(.findUserByEmail u.primaryEmail, none),
               (.updateUser (UpdateUser uu.id u.name.givenName u.name.familyName
                 u.primaryEmail (!u.suspended)), some e)], some e))
          | .ok _ =>
            let r := syncUsersLoop s ignoreUsers rest ((uu.username, uu) :: users)
            (r.1, prependEv (.findUserByEmail u.primaryEmail, none)
              (prependEv (.updateUser (UpdateUser uu.id u.name.givenName u.name.familyName
                u.primaryEmail (!u.suspended)), none) r.2))
        else
          let r := syncUsersLoop s ignoreUsers rest ((uu.username, uu) :: users)
          (r.1, prependEv (.findUserByEmail u.primaryEmail, none) r.2)
      | .error eFind =>
        match s.createUser (NewUser u.name.givenName u.name.familyName u.primaryEmail
            (!u.suspended)) with
        | .error e =>
          (users,
           ([(.findUserByEmail u.primaryEmail, some eFind),
             (.createUser (NewUser u.name.givenName u.name.familyName u.primaryEmail
               (!u.suspended)), some e)], some e))
        | .ok uu =>
          let r := syncUsersLoop s ignoreUsers rest ((uu.username, uu) :: users)
          (r.1, prependEv (.findUserByEmail u.primaryEmail, some eFind)
            (prependEv (.createUser (NewUser u.name.givenName u.name.familyName
              u.primaryEmail (!u.suspended)), none) r.2))

/-- C10: in the alternate sync mode, for a user present in both stores
whose target active flag is not equal to the source suspended flag,
the `SyncUsers` loop issues no update call (and no create): the step
contributes only the lookup call to the trace, records the found user,
and moves on — even when the given or family name differs, so the
target record is left unchanged. -/
theorem c10_syncUsers_no_update_when_flags_differ
    (s : AwsStore) (ignoreUsers : List String) (u : GoogleUser) (uu : AwsUser)
    (rest : List GoogleUser) (users : List (String × AwsUser))
    (hig : ignoreUser ignoreUsers u.primaryEmail = false)
    (hfind : s.findUserByEmail u.primaryEmail = .ok uu)
    (hflag : uu.active ≠ u.suspended) :
    syncUsersLoop s ignoreUsers (u :: rest) users
      = ((syncUsersLoop s ignoreUsers rest ((uu.username, uu) :: users)).1,
         prependEv (.findUserByEmail u.primaryEmail, none)
           (syncUsersLoop s ignoreUsers rest ((uu.username, uu) :: users)).2) := by
  have hb : (uu.active == u.suspended) = false := beq_eq_false_iff_ne.2 hflag
  simp [syncUsersLoop, hig, hfind, hb]

/-- Witness for C10 at a concrete input: the target record has given
name `Old` and the source has `New`, yet because active (true) differs
from suspended (false), the step performs only the lookup. -/
theorem c10_syncUsers_no_update_when_flags_differ_witness :
    syncUsersLoop storeCarl [] [googleSampleCarl] []
      = ([("c@x.com", awsUserCarlOld)], ([(.findUserByEmail "c@x.com", none)], none)) := by
  rw [c10_syncUsers_no_update_when_flags_differ storeCarl [] googleSampleCarl awsUserCarlOld
    [] [] rfl rfl (by decide)]
  rfl

